import Mathlib

/-!
# Vc: compound-width vectors and the NEON backend

A shallow embedding of `src/common/simd_array.h` (the compound vector
`simd_array<T, N>`) and of `src/datapar/neon.h` (the NEON implementation
table and the mask reductions), followed by theorems about them.

Conventions of the embedding:

* a native register is a function from the lane index to the lane's content;
  only the lanes below the lane count are meaningful;
* for the NEON backend a lane holds its bit pattern as a natural number, read
  modulo `2 ^ w` for a lane of `w` bits; signed integers are read in two's
  complement and floating-point lanes in the IEEE-754 binary interchange
  encoding, whose comparisons are exact functions of the bit pattern;
* `sizeof(long)` is a parameter `sl` (4 or 8 on the platforms NEON exists on).
-/

namespace Vc

/-! ## `src/common/simd_array.h` -/

/-- The native register `Vc::Vector<T>` (also used for `Vc::Mask<T>` with
`T := Bool`): lane index to lane content. The class itself is not part of
the sources; its operators enter the definitions below as parameters. -/
abbrev vector_type (T : Type) : Type := Nat → T

/-- `simd_array<T, N>::register_count` for `size = N` and
`vector_type::Size = W`:
`size > vector_type::Size ? size / vector_type::Size : 1`. -/
def register_count (N W : Nat) : Nat :=
  if N > W then N / W else 1

/-- The data member `std::array<vector_type, register_count> d` of
`simd_array<T, N>`; registers at indices `≥ register_count` do not exist in
the source and are never read by the operations below. -/
structure simd_array (T : Type) where
  d : Nat → vector_type T

/-- The mask companion `simd_mask_array<T, N>`: the same register layout with
native mask registers. -/
structure simd_mask_array where
  d : Nat → vector_type Bool

/-- `simd_array::data(i)` (const): `return d[i];`. -/
def simd_array.data {T : Type} (a : simd_array T) (i : Nat) : vector_type T :=
  a.d i

/-- Assignment through the reference returned by the non-const
`simd_array::data(i)`: `r.data(i) = v`. -/
def simd_array.setData {T : Type} (r : simd_array T) (i : Nat) (v : vector_type T) :
    simd_array T :=
  ⟨fun j => if j = i then v else r.d j⟩

/-- `simd_mask_array::data(i)` (const). -/
def simd_mask_array.data (m : simd_mask_array) (i : Nat) : vector_type Bool :=
  m.d i

/-- Assignment through `simd_mask_array::data(i)`: `r.data(i) = v`. -/
def simd_mask_array.setData (r : simd_mask_array) (i : Nat) (v : vector_type Bool) :
    simd_mask_array :=
  ⟨fun j => if j = i then v else r.d j⟩

/-- `VC_OPERATOR_IMPL(op)`, the binary form `simd_array operator op(const
simd_array &x) const`:
```
simd_array r;
for (std::size_t i = 0; i < register_count; ++i) { r.data(i) = d[i] op x.d[i]; }
return r;
```
`vop` is the native `Vc::Vector<T>` operator and `r0` the default-constructed
`r`. -/
def simd_array.operator_op {T : Type} (vop : vector_type T → vector_type T → vector_type T)
    (N W : Nat) (r0 self x : simd_array T) : simd_array T :=
  (List.range (register_count N W)).foldl
    (fun r i => r.setData i (vop (self.d i) (x.d i))) r0

/-- `VC_OPERATOR_IMPL(op)`, the compound assignment `simd_array &operator
op=(const simd_array &x)`:
```
for (std::size_t i = 0; i < register_count; ++i) { d[i] op= x.d[i]; }
return *this;
```
`vopAssign u v` is the content of a native register `u` after `u op= v`. The
result is the updated `*this`. -/
def simd_array.operator_op_assign {T : Type}
    (vopAssign : vector_type T → vector_type T → vector_type T)
    (N W : Nat) (self x : simd_array T) : simd_array T :=
  (List.range (register_count N W)).foldl
    (fun s i => s.setData i (vopAssign (s.d i) (x.d i))) self

/-- `VC_COMPARE_IMPL(op)`: `mask_type operator op(const simd_array &x) const`:
```
mask_type r;
for (std::size_t i = 0; i < register_count; ++i) { r.data(i) = d[i] op x.d[i]; }
return r;
```
`vcmp` is the native `Vc::Vector<T>` comparison and `r0` the
default-constructed `r`. -/
def simd_array.operator_cmp {T : Type} (vcmp : vector_type T → vector_type T → vector_type Bool)
    (N W : Nat) (r0 : simd_mask_array) (self x : simd_array T) : simd_mask_array :=
  (List.range (register_count N W)).foldl
    (fun r i => r.setData i (vcmp (self.d i) (x.d i))) r0

/-- Lane `i` of a compound vector whose registers hold `W` lanes: position
`i mod W` of register `i / W`. -/
def simd_array.lane {T : Type} (W : Nat) (a : simd_array T) (i : Nat) : T :=
  a.data (i / W) (i % W)

/-- Lane `i` of a compound mask whose registers hold `W` lanes. -/
def simd_mask_array.lane (W : Nat) (m : simd_mask_array) (i : Nat) : Bool :=
  m.data (i / W) (i % W)

/-! ## `src/datapar/neon.h`: element types and scalars -/

/-- The element types of the NEON compare table, under the names the source
uses for them. -/
inductive ElemType
  | double | float | llong | ullong | long | ulong | int | uint | short | ushort
  | schar | uchar
  deriving DecidableEq

/-- How the bit pattern of a lane is read. -/
inductive Kind
  | floating | signed | unsigned
  deriving DecidableEq

/-- The kind of each element type. -/
def ElemType.kind : ElemType → Kind
  | .double => .floating
  | .float => .floating
  | .llong => .signed
  | .ullong => .unsigned
  | .long => .signed
  | .ulong => .unsigned
  | .int => .signed
  | .uint => .unsigned
  | .short => .signed
  | .ushort => .unsigned
  | .schar => .signed
  | .uchar => .unsigned

/-- `sizeof(T)` in bytes; `sl` is `sizeof(long)`. -/
def sizeofT (sl : Nat) : ElemType → Nat
  | .double => 8
  | .float => 4
  | .llong => 8
  | .ullong => 8
  | .long => sl
  | .ulong => sl
  | .int => 4
  | .uint => 4
  | .short => 2
  | .ushort => 2
  | .schar => 1
  | .uchar => 1

/-- The number of bits of a lane of element type `T`. -/
def lane_bits (sl : Nat) (t : ElemType) : Nat :=
  8 * sizeofT sl t

/-- `traits<T, datapar_abi::neon>::size()`: `return 16 / sizeof(T);`. -/
def size (sl : Nat) (t : ElemType) : Nat :=
  16 / sizeofT sl t

/-- The number of fraction bits of a floating-point element type (IEEE-754
binary64 and binary32). -/
def frac_bits : ElemType → Nat
  | .double => 52
  | .float => 23
  | _ => 0

/-- `Storage<T, 16 / sizeof(T)>` (the struct is not part of the sources): the
bit pattern of each lane. -/
abbrev Storage : Type := Nat → Nat

/-- Two's-complement value of the low `w` bits of `a`. -/
def toInt (w a : Nat) : Int :=
  if a % 2 ^ w < 2 ^ (w - 1) then ((a % 2 ^ w : Nat) : Int)
  else ((a % 2 ^ w : Nat) : Int) - ((2 ^ w : Nat) : Int)

/-- IEEE-754: the low `w` bits of `a`, with `m` fraction bits, encode a NaN
(exponent all ones, fraction not zero). -/
def isNaN (w m a : Nat) : Bool :=
  decide (2 ^ (w - 1) - 2 ^ m < a % 2 ^ (w - 1))

/-- IEEE-754: the position of a non-NaN pattern in the order of the values:
the magnitude, negated when the sign bit is set (both zeros give 0). -/
def fkey (w a : Nat) : Int :=
  if a % 2 ^ w < 2 ^ (w - 1) then ((a % 2 ^ (w - 1) : Nat) : Int)
  else -((a % 2 ^ (w - 1) : Nat) : Int)

/-- Floating-point `a == b`. -/
def fEq (w m a b : Nat) : Bool :=
  !isNaN w m a && !isNaN w m b && decide (fkey w a = fkey w b)

/-- Floating-point `a < b`. -/
def fLt (w m a b : Nat) : Bool :=
  !isNaN w m a && !isNaN w m b && decide (fkey w a < fkey w b)

/-- Floating-point `a <= b`. -/
def fLe (w m a b : Nat) : Bool :=
  !isNaN w m a && !isNaN w m b && decide (fkey w a ≤ fkey w b)

/-- Signed `a == b`. -/
def sEq (w a b : Nat) : Bool := decide (toInt w a = toInt w b)

/-- Signed `a < b`. -/
def sLt (w a b : Nat) : Bool := decide (toInt w a < toInt w b)

/-- Signed `a <= b`. -/
def sLe (w a b : Nat) : Bool := decide (toInt w a ≤ toInt w b)

/-- Unsigned `a == b`. -/
def uEq (w a b : Nat) : Bool := decide (a % 2 ^ w = b % 2 ^ w)

/-- Unsigned `a < b`. -/
def uLt (w a b : Nat) : Bool := decide (a % 2 ^ w < b % 2 ^ w)

/-- Unsigned `a <= b`. -/
def uLe (w a b : Nat) : Bool := decide (a % 2 ^ w ≤ b % 2 ^ w)

/-- The scalar `a == b` of element type `T`. -/
def scalar_eq (sl : Nat) (t : ElemType) (a b : Nat) : Bool :=
  match t.kind with
  | .floating => fEq (lane_bits sl t) (frac_bits t) a b
  | .signed => sEq (lane_bits sl t) a b
  | .unsigned => uEq (lane_bits sl t) a b

/-- The scalar `a < b` of element type `T`. -/
def scalar_lt (sl : Nat) (t : ElemType) (a b : Nat) : Bool :=
  match t.kind with
  | .floating => fLt (lane_bits sl t) (frac_bits t) a b
  | .signed => sLt (lane_bits sl t) a b
  | .unsigned => uLt (lane_bits sl t) a b

/-- The scalar `a <= b` of element type `T`. -/
def scalar_le (sl : Nat) (t : ElemType) (a b : Nat) : Bool :=
  match t.kind with
  | .floating => fLe (lane_bits sl t) (frac_bits t) a b
  | .signed => sLe (lane_bits sl t) a b
  | .unsigned => uLe (lane_bits sl t) a b

/-- The conversion of a scalar of element type `T` to `bool`: `a != 0`. -/
def to_bool (sl : Nat) (t : ElemType) (a : Nat) : Bool :=
  !scalar_eq sl t a 0

/-! ## `src/datapar/neon.h`: intrinsics -/

/-- The lane-wise compare of the Arm C Language Extensions: every bit of a
result lane of `w` bits is set when the comparison of the two operand lanes
holds, and cleared when it does not. -/
def cmp_lanes (w : Nat) (p : Nat → Nat → Bool) (x y : Storage) : Storage :=
  fun i => if p (x i) (y i) then 2 ^ w - 1 else 0

/-- The intrinsic `vceqq_f64`: compare equal, floating-point lanes of 64 bits. -/
def vceqq_f64 : Storage → Storage → Storage := cmp_lanes 64 (fEq 64 52)

/-- The intrinsic `vceqq_f32`: compare equal, floating-point lanes of 32 bits. -/
def vceqq_f32 : Storage → Storage → Storage := cmp_lanes 32 (fEq 32 23)

/-- The intrinsic `vceqq_s64`: compare equal, signed lanes of 64 bits. -/
def vceqq_s64 : Storage → Storage → Storage := cmp_lanes 64 (sEq 64)

/-- The intrinsic `vceqq_u64`: compare equal, unsigned lanes of 64 bits. -/
def vceqq_u64 : Storage → Storage → Storage := cmp_lanes 64 (uEq 64)

/-- The intrinsic `vceqq_s32`: compare equal, signed lanes of 32 bits. -/
def vceqq_s32 : Storage → Storage → Storage := cmp_lanes 32 (sEq 32)

/-- The intrinsic `vceqq_u32`: compare equal, unsigned lanes of 32 bits. -/
def vceqq_u32 : Storage → Storage → Storage := cmp_lanes 32 (uEq 32)

/-- The intrinsic `vceqq_s16`: compare equal, signed lanes of 16 bits. -/
def vceqq_s16 : Storage → Storage → Storage := cmp_lanes 16 (sEq 16)

/-- The intrinsic `vceqq_u16`: compare equal, unsigned lanes of 16 bits. -/
def vceqq_u16 : Storage → Storage → Storage := cmp_lanes 16 (uEq 16)

/-- The intrinsic `vceqq_s8`: compare equal, signed lanes of 8 bits. -/
def vceqq_s8 : Storage → Storage → Storage := cmp_lanes 8 (sEq 8)

/-- The intrinsic `vceqq_u8`: compare equal, unsigned lanes of 8 bits. -/
def vceqq_u8 : Storage → Storage → Storage := cmp_lanes 8 (uEq 8)

/-- The intrinsic `vclt_f64`: compare less than, floating-point lanes of 64 bits. -/
def vclt_f64 : Storage → Storage → Storage := cmp_lanes 64 (fLt 64 52)

/-- The intrinsic `vclt_f32`: compare less than, floating-point lanes of 32 bits. -/
def vclt_f32 : Storage → Storage → Storage := cmp_lanes 32 (fLt 32 23)

/-- The intrinsic `vclt_s64`: compare less than, signed lanes of 64 bits. -/
def vclt_s64 : Storage → Storage → Storage := cmp_lanes 64 (sLt 64)

/-- The intrinsic `vclt_u64`: compare less than, unsigned lanes of 64 bits. -/
def vclt_u64 : Storage → Storage → Storage := cmp_lanes 64 (uLt 64)

/-- The intrinsic `vclt_s32`: compare less than, signed lanes of 32 bits. -/
def vclt_s32 : Storage → Storage → Storage := cmp_lanes 32 (sLt 32)

/-- The intrinsic `vclt_u32`: compare less than, unsigned lanes of 32 bits. -/
def vclt_u32 : Storage → Storage → Storage := cmp_lanes 32 (uLt 32)

/-- The intrinsic `vclt_s16`: compare less than, signed lanes of 16 bits. -/
def vclt_s16 : Storage → Storage → Storage := cmp_lanes 16 (sLt 16)

/-- The intrinsic `vclt_u16`: compare less than, unsigned lanes of 16 bits. -/
def vclt_u16 : Storage → Storage → Storage := cmp_lanes 16 (uLt 16)

/-- The intrinsic `vclt_s8`: compare less than, signed lanes of 8 bits. -/
def vclt_s8 : Storage → Storage → Storage := cmp_lanes 8 (sLt 8)

/-- The intrinsic `vclt_u8`: compare less than, unsigned lanes of 8 bits. -/
def vclt_u8 : Storage → Storage → Storage := cmp_lanes 8 (uLt 8)

/-- The intrinsic `vcle_f64`: compare less than or equal, floating-point lanes of 64 bits. -/
def vcle_f64 : Storage → Storage → Storage := cmp_lanes 64 (fLe 64 52)

/-- The intrinsic `vcle_f32`: compare less than or equal, floating-point lanes of 32 bits. -/
def vcle_f32 : Storage → Storage → Storage := cmp_lanes 32 (fLe 32 23)

/-- The intrinsic `vcle_s64`: compare less than or equal, signed lanes of 64 bits. -/
def vcle_s64 : Storage → Storage → Storage := cmp_lanes 64 (sLe 64)

/-- The intrinsic `vcle_u64`: compare less than or equal, unsigned lanes of 64 bits. -/
def vcle_u64 : Storage → Storage → Storage := cmp_lanes 64 (uLe 64)

/-- The intrinsic `vcle_s32`: compare less than or equal, signed lanes of 32 bits. -/
def vcle_s32 : Storage → Storage → Storage := cmp_lanes 32 (sLe 32)

/-- The intrinsic `vcle_u32`: compare less than or equal, unsigned lanes of 32 bits. -/
def vcle_u32 : Storage → Storage → Storage := cmp_lanes 32 (uLe 32)

/-- The intrinsic `vcle_s16`: compare less than or equal, signed lanes of 16 bits. -/
def vcle_s16 : Storage → Storage → Storage := cmp_lanes 16 (sLe 16)

/-- The intrinsic `vcle_u16`: compare less than or equal, unsigned lanes of 16 bits. -/
def vcle_u16 : Storage → Storage → Storage := cmp_lanes 16 (uLe 16)

/-- The intrinsic `vcle_s8`: compare less than or equal, signed lanes of 8 bits. -/
def vcle_s8 : Storage → Storage → Storage := cmp_lanes 8 (sLe 8)

/-- The intrinsic `vcle_u8`: compare less than or equal, unsigned lanes of 8 bits. -/
def vcle_u8 : Storage → Storage → Storage := cmp_lanes 8 (uLe 8)

/-- Modelled from the spec: `detail::not_` is not part of the sources; it is
the bitwise complement of a register ("derived as the bitwise complement"),
here of a register whose lanes have `w` bits. -/
def not_ (w : Nat) (x : Storage) : Storage :=
  fun i => 2 ^ w - 1 - x i % 2 ^ w

/-- The intrinsic `vld1q_dup_f32` as `broadcast` uses it: every lane is the
given scalar. -/
def vld1q_dup_f32 (x : Nat) : Storage :=
  fun _ => x

/-- Modelled from the spec: `detail::load16` is not part of the sources; it
reads one register of contiguous elements from memory, lane `i` from
`mem[i]`. -/
def load16 (mem : Nat → Nat) : Storage :=
  fun i => mem i

/-! ## `src/datapar/neon.h`: `neon_datapar_impl` -/

/-- `neon_datapar_impl::broadcast(float x, size_tag<4>)`:
`return vld1q_dup_f32(x);`. -/
def neon_datapar_impl.broadcast_float (x : Nat) : Storage :=
  vld1q_dup_f32 x

/-- `neon_datapar_impl::load(const T *mem, F f, type_tag<T>)`, the load
without conversion: `return detail::load16(mem, f);`. -/
def neon_datapar_impl.load (mem : Nat → Nat) : Storage :=
  load16 mem

/-- The overloads of `neon_datapar_impl::equal_to` (intrinsics variant, lines
257-268), one row per element type; `x` and `y` stand for `x.d` and `y.d`.
The rows of `long` and `unsigned long` read
`detail::not_(sizeof(long) == 8 ? vceqq_s64(x.d, y.d) : vceqq_s32(x.d, y.d)`
in the source (with the closing parenthesis of `not_` missing). -/
def neon_datapar_impl.equal_to (sl : Nat) : ElemType → Storage → Storage → Storage
  | .double, x, y => vceqq_f64 x y
  | .float, x, y => vceqq_f32 x y
  | .llong, x, y => vceqq_s64 x y
  | .ullong, x, y => vceqq_u64 x y
  | .long, x, y => not_ (lane_bits sl .long) (if sl = 8 then vceqq_s64 x y else vceqq_s32 x y)
  | .ulong, x, y => not_ (lane_bits sl .ulong) (if sl = 8 then vceqq_u64 x y else vceqq_u32 x y)
  | .int, x, y => vceqq_s32 x y
  | .uint, x, y => vceqq_u32 x y
  | .short, x, y => vceqq_s16 x y
  | .ushort, x, y => vceqq_u16 x y
  | .schar, x, y => vceqq_s8 x y
  | .uchar, x, y => vceqq_u8 x y

/-- The overloads of `neon_datapar_impl::not_equal_to` (lines 270-281):
`detail::not_` of the equality intrinsic of the element type. -/
def neon_datapar_impl.not_equal_to (sl : Nat) : ElemType → Storage → Storage → Storage
  | .double, x, y => not_ 64 (vceqq_f64 x y)
  | .float, x, y => not_ 32 (vceqq_f32 x y)
  | .llong, x, y => not_ 64 (vceqq_s64 x y)
  | .ullong, x, y => not_ 64 (vceqq_u64 x y)
  | .long, x, y => not_ (lane_bits sl .long) (if sl = 8 then vceqq_s64 x y else vceqq_s32 x y)
  | .ulong, x, y => not_ (lane_bits sl .ulong) (if sl = 8 then vceqq_u64 x y else vceqq_u32 x y)
  | .int, x, y => not_ 32 (vceqq_s32 x y)
  | .uint, x, y => not_ 32 (vceqq_u32 x y)
  | .short, x, y => not_ 16 (vceqq_s16 x y)
  | .ushort, x, y => not_ 16 (vceqq_u16 x y)
  | .schar, x, y => not_ 8 (vceqq_s8 x y)
  | .uchar, x, y => not_ 8 (vceqq_u8 x y)

/-- The overloads of `neon_datapar_impl::less` (lines 283-294): the rows of
`double` and `float` call the intrinsic on `(x.d, y.d)`, the integer rows on
`(y.d, x.d)`. -/
def neon_datapar_impl.less (sl : Nat) : ElemType → Storage → Storage → Storage
  | .double, x, y => vclt_f64 x y
  | .float, x, y => vclt_f32 x y
  | .llong, x, y => vclt_s64 y x
  | .ullong, x, y => vclt_u64 y x
  | .long, x, y => (if sl = 8 then vclt_s64 y x else vclt_s32 y x)
  | .ulong, x, y => (if sl = 8 then vclt_u64 y x else vclt_u32 y x)
  | .int, x, y => vclt_s32 y x
  | .uint, x, y => vclt_u32 y x
  | .short, x, y => vclt_s16 y x
  | .ushort, x, y => vclt_u16 y x
  | .schar, x, y => vclt_s8 y x
  | .uchar, x, y => vclt_u8 y x

/-- The overloads of `neon_datapar_impl::less_equal` (lines 296-307):
`detail::not_` of the less-than-or-equal intrinsic on `(x.d, y.d)`. -/
def neon_datapar_impl.less_equal (sl : Nat) : ElemType → Storage → Storage → Storage
  | .double, x, y => not_ 64 (vcle_f64 x y)
  | .float, x, y => not_ 32 (vcle_f32 x y)
  | .llong, x, y => not_ 64 (vcle_s64 x y)
  | .ullong, x, y => not_ 64 (vcle_u64 x y)
  | .long, x, y => not_ (lane_bits sl .long) (if sl = 8 then vcle_s64 x y else vcle_s32 x y)
  | .ulong, x, y => not_ (lane_bits sl .ulong) (if sl = 8 then vcle_u64 x y else vcle_u32 x y)
  | .int, x, y => not_ 32 (vcle_s32 x y)
  | .uint, x, y => not_ 32 (vcle_u32 x y)
  | .short, x, y => not_ 16 (vcle_s16 x y)
  | .ushort, x, y => not_ 16 (vcle_u16 x y)
  | .schar, x, y => not_ 8 (vcle_s8 x y)
  | .uchar, x, y => not_ 8 (vcle_u8 x y)

/-- `neon_datapar_impl::get(v, i)`: `return v.d.m(i);`, the content of lane
`i`. -/
def neon_datapar_impl.get (v : Storage) (i : Nat) : Nat :=
  v i

/-! ## `src/datapar/neon.h`: `neon_mask_impl` -/

/-- `neon_mask_impl::get(k, i)`: `return k.d.m(i);` with return type `bool`:
the content of lane `i`, a scalar of the element type, converted to `bool`. -/
def neon_mask_impl.get (sl : Nat) (t : ElemType) (k : Storage) (i : Nat) : Bool :=
  to_bool sl t (k i)

/-- The encoding of a mask of element type `T`: every lane has all its bits
set or all its bits cleared. -/
def mask_encoded (sl : Nat) (t : ElemType) (k : Storage) : Prop :=
  ∀ i, i < size sl t → k i = 0 ∨ k i = 2 ^ lane_bits sl t - 1

/-! ## `src/datapar/neon.h`: mask reductions -/

/-- The integer whose bit `i`, for `i < n`, is the most significant bit of
lane `i` of `d`, the lanes having `w` bits: what the `movemask` instructions
compute. -/
def sign_mask (w : Nat) (d : Storage) : Nat → Nat
  | 0 => 0
  | n + 1 => sign_mask w d n ||| ((d n >>> (w - 1)) &&& 1) <<< n

/-- The intrinsic `_mm_movemask_ps`: the sign bits of the four 32-bit
lanes. -/
def mm_movemask_ps (d : Storage) : Nat :=
  sign_mask 32 d 4

/-- The intrinsic `_mm_movemask_pd`: the sign bits of the two 64-bit
lanes. -/
def mm_movemask_pd (d : Storage) : Nat :=
  sign_mask 64 d 2

/-- The intrinsic `_mm_movemask_epi8`: the most significant bits of the
sixteen bytes of the register. -/
def mm_movemask_epi8 (bytes : Storage) : Nat :=
  sign_mask 8 bytes 16

/-- The bytes of a register whose lanes have `w` bits (little-endian, as the
cast `const int32x4_t d(k)` leaves them for a byte-wise instruction): byte
`j` is byte `j mod (w / 8)` of lane `j / (w / 8)`. -/
def to_bytes (w : Nat) (d : Storage) : Storage :=
  fun j => (d (j / (w / 8)) >>> (8 * (j % (w / 8)))) % 256

/-- `all_of(mask<float, datapar_abi::Neon> k)`:
`return _mm_movemask_ps(d) == 0xf;`. -/
def all_of_float (k : Storage) : Bool :=
  mm_movemask_ps k == 0xf

/-- `any_of(mask<float, datapar_abi::Neon> k)`:
`return _mm_movemask_ps(d) != 0;`. -/
def any_of_float (k : Storage) : Bool :=
  mm_movemask_ps k != 0

/-- `none_of(mask<float, datapar_abi::Neon> k)`:
`return _mm_movemask_ps(d) == 0;`. -/
def none_of_float (k : Storage) : Bool :=
  mm_movemask_ps k == 0

/-- `some_of(mask<float, datapar_abi::Neon> k)`:
`const int tmp = _mm_movemask_ps(d); return tmp != 0 && (tmp ^ 0xf) != 0;`. -/
def some_of_float (k : Storage) : Bool :=
  let tmp := mm_movemask_ps k
  tmp != 0 && (tmp ^^^ 0xf) != 0

/-- `all_of(mask<double, datapar_abi::Neon> k)`:
`return _mm_movemask_pd(d) == 0x3;`. -/
def all_of_double (k : Storage) : Bool :=
  mm_movemask_pd k == 0x3

/-- `any_of(mask<double, datapar_abi::Neon> k)`:
`return _mm_movemask_pd(d) != 0;`. -/
def any_of_double (k : Storage) : Bool :=
  mm_movemask_pd k != 0

/-- `none_of(mask<double, datapar_abi::Neon> k)`:
`return _mm_movemask_pd(d) == 0;`. -/
def none_of_double (k : Storage) : Bool :=
  mm_movemask_pd k == 0

/-- `some_of(mask<double, datapar_abi::Neon> k)`:
`const int tmp = _mm_movemask_pd(d); return tmp == 1 || tmp == 2;`. -/
def some_of_double (k : Storage) : Bool :=
  let tmp := mm_movemask_pd k
  tmp == 1 || tmp == 2

/-- `template <class T> all_of(mask<T, datapar_abi::Neon> k)`:
`const int32x4_t d(k); return _mm_movemask_epi8(d) == 0xffff;`, for lanes
of `w` bits. -/
def all_of_generic (w : Nat) (k : Storage) : Bool :=
  mm_movemask_epi8 (to_bytes w k) == 0xffff

/-- `template <class T> any_of(mask<T, datapar_abi::Neon> k)`:
`return _mm_movemask_epi8(d) != 0x0000;`. -/
def any_of_generic (w : Nat) (k : Storage) : Bool :=
  mm_movemask_epi8 (to_bytes w k) != 0x0000

/-- `template <class T> none_of(mask<T, datapar_abi::Neon> k)`:
`return _mm_movemask_epi8(d) == 0x0000;`. -/
def none_of_generic (w : Nat) (k : Storage) : Bool :=
  mm_movemask_epi8 (to_bytes w k) == 0x0000

/-- `template <class T> some_of(mask<T, datapar_abi::Neon> k)`:
`const int tmp = _mm_movemask_epi8(d); return tmp != 0 && (tmp ^ 0xffff) != 0;`. -/
def some_of_generic (w : Nat) (k : Storage) : Bool :=
  let tmp := mm_movemask_epi8 (to_bytes w k)
  tmp != 0 && (tmp ^^^ 0xffff) != 0

/-- Overload resolution of `all_of` on a mask of element type `T`: the
`float` and `double` overloads are more specialised than the template. -/
def all_of (sl : Nat) (t : ElemType) (k : Storage) : Bool :=
  match t with
  | .float => all_of_float k
  | .double => all_of_double k
  | _ => all_of_generic (lane_bits sl t) k

/-- Overload resolution of `any_of` on a mask of element type `T`. -/
def any_of (sl : Nat) (t : ElemType) (k : Storage) : Bool :=
  match t with
  | .float => any_of_float k
  | .double => any_of_double k
  | _ => any_of_generic (lane_bits sl t) k

/-- Overload resolution of `none_of` on a mask of element type `T`. -/
def none_of (sl : Nat) (t : ElemType) (k : Storage) : Bool :=
  match t with
  | .float => none_of_float k
  | .double => none_of_double k
  | _ => none_of_generic (lane_bits sl t) k

/-- Overload resolution of `some_of` on a mask of element type `T`. -/
def some_of (sl : Nat) (t : ElemType) (k : Storage) : Bool :=
  match t with
  | .float => some_of_float k
  | .double => some_of_double k
  | _ => some_of_generic (lane_bits sl t) k

/-- Modelled from the spec: `detail::mask_to_int<N>` is not part of the
sources; it "converts a Mask Value's native bit layout into a per-lane (not
per-bit) integer mask": bit `i` of the result, for `i < N`, is the boolean
state of lane `i`. -/
def mask_to_int (sl : Nat) (t : ElemType) : Nat → Storage → Nat
  | 0, _ => 0
  | n + 1, d => mask_to_int sl t n d ||| (if to_bool sl t (d n) then 1 else 0) <<< n

/-- Modelled from the spec: `detail::mask_count<N>` is not part of the
sources; "`popcount` counts set lanes": the number of lanes `i < N` whose
boolean state is true. -/
def mask_count (sl : Nat) (t : ElemType) : Nat → Storage → Nat
  | 0, _ => 0
  | n + 1, d => mask_count sl t n d + (if to_bool sl t (d n) then 1 else 0)

/-- The lowest set bit of `bits` among the positions `i, ..., i + fuel - 1`. -/
def firstbit_from (bits : Nat) : Nat → Nat → Option Nat
  | 0, _ => none
  | fuel + 1, i => if bits.testBit i then some i else firstbit_from bits fuel (i + 1)

/-- The highest set bit of `bits` among the positions below `n`. -/
def lastbit_below (bits : Nat) : Nat → Option Nat
  | 0 => none
  | n + 1 => if bits.testBit n then some n else lastbit_below bits n

/-- Modelled from the spec: `detail::firstbit` is not part of the sources;
`find_first_set` returns "the index of the lowest ... set lane or a defined
not found sentinel": the position of the lowest set bit of a 32-bit integer;
`none` stands for the sentinel. -/
def firstbit (bits : Nat) : Option Nat :=
  firstbit_from bits 32 0

/-- Modelled from the spec: `detail::lastbit` is not part of the sources; the
position of the highest set bit of a 32-bit integer; `none` stands for the
sentinel. -/
def lastbit (bits : Nat) : Option Nat :=
  lastbit_below bits 32

/-- `popcount(mask<T, datapar_abi::neon> k)`:
`return detail::mask_count<k.size()>(d);`. -/
def popcount (sl : Nat) (t : ElemType) (k : Storage) : Nat :=
  mask_count sl t (size sl t) k

/-- `find_first_set(mask<T, datapar_abi::neon> k)`:
`return detail::firstbit(detail::mask_to_int<k.size()>(d));`. -/
def find_first_set (sl : Nat) (t : ElemType) (k : Storage) : Option Nat :=
  firstbit (mask_to_int sl t (size sl t) k)

/-- `find_last_set(mask<T, datapar_abi::neon> k)`:
`return detail::lastbit(detail::mask_to_int<k.size()>(d));`. -/
def find_last_set (sl : Nat) (t : ElemType) (k : Storage) : Option Nat :=
  lastbit (mask_to_int sl t (size sl t) k)

/-! ## `src/datapar/neon.h`: memory, negation and mask operators -/

/-- Modelled from the spec: `detail::and_` is not part of the sources; the
mask operators are "direct bitwise instructions": the bitwise AND of two
registers. -/
def and_ (x y : Storage) : Storage :=
  fun i => x i &&& y i

/-- Modelled from the spec: `detail::or_` is not part of the sources; the
bitwise OR of two registers. -/
def or_ (x y : Storage) : Storage :=
  fun i => x i ||| y i

/-- Modelled from the spec: `detail::xor_` is not part of the sources; the
bitwise exclusive OR of two registers. -/
def xor_ (x y : Storage) : Storage :=
  fun i => x i ^^^ y i

/-- Modelled from the spec: the constructor `datapar<T>(x)` from a scalar is
not part of the sources; "broadcast(scalar): replicate one scalar value into
every lane". -/
def datapar_of_scalar (x : Nat) : Storage :=
  fun _ => x

/-- Modelled from the spec: `execute_n_times<N>(f)` is not part of the
sources; it calls `f(0)`, ..., `f(N - 1)` in this order ("a per-lane ...
loop"); `f i s` is the state after `f(i)` ran in state `s`. -/
def execute_n_times {S : Type} (n : Nat) (f : Nat → S → S) (s : S) : S :=
  (List.range n).foldl (fun s i => f i s) s

/-- Modelled from the spec: `generate_from_n_evaluations<N, Storage>(f)` is
not part of the sources; lane `i` of the result is `f(i)` for `i < N` (the
lanes from `N` on do not exist; they read 0 here). -/
def generate_from_n_evaluations (n : Nat) (f : Nat → Nat) : Storage :=
  fun i => if i < n then f i else 0

/-- The assignment `mem[i] = x` on a buffer. -/
def write {U : Type} (mem : Nat → U) (i : Nat) (x : U) : Nat → U :=
  fun j => if j = i then x else mem j

/-- Modelled from the spec: `detail::store2`, `store4`, `store8` and
`store16` are not part of the sources; a native store of `nbytes` bytes
writes the first `nbytes / su` lanes of the register to the buffer of
elements of `su` bytes, lane `i` to `mem[i]`. -/
def store_bytes (nbytes su : Nat) (x : Storage) (mem : Nat → Nat) : Nat → Nat :=
  fun i => if i < nbytes / su then x i else mem i

/-- Modelled from the spec: `detail::convert<From, To>` is not part of the
sources; it "performs per-lane numeric conversion": lane `i` of the result
is the scalar cast of lane `i` of the operand, for the `n` lanes of the
operand (the further lanes of the result are unspecified; they read 0
here). -/
def convert (n : Nat) (cast : Nat → Nat) (v : Storage) : Storage :=
  fun i => if i < n then cast (v i) else 0

/-- `neon_datapar_impl::load(const long double *mem, F, type_tag<T>)`:
```
return generate_from_n_evaluations<size<T>(), datapar_member_type<T>>(
    [&](auto i) { return static_cast<T>(mem[i]); });
```
`L` is `long double` and `cast` the scalar `static_cast<T>`. -/
def neon_datapar_impl.load_long_double {L : Type} (sl : Nat) (t : ElemType) (cast : L → Nat)
    (mem : Nat → L) : Storage :=
  generate_from_n_evaluations (size sl t) (fun i => cast (mem i))

/-- `neon_datapar_impl::store(datapar_member_type<T> v, long double *mem, F,
type_tag<T>)`: `execute_n_times<size<T>()>([&](auto i) { mem[i] = v.m(i); });`.
`L` is `long double` and `cast` the implicit conversion of a `T` to it. -/
def neon_datapar_impl.store_long_double {L : Type} (sl : Nat) (t : ElemType) (cast : Nat → L)
    (v : Storage) (mem : Nat → L) : Nat → L :=
  execute_n_times (size sl t) (fun i mem => write mem i (cast (v i))) mem

/-- `neon_datapar_impl::store(datapar_member_type<T> v, T *mem, F f,
type_tag<T>)`, the store without conversion: `store16(v, mem, f);`. -/
def neon_datapar_impl.store (sl : Nat) (t : ElemType) (v : Storage) (mem : Nat → Nat) :
    Nat → Nat :=
  store_bytes 16 (sizeofT sl t) v mem

/-- The converting overloads of `neon_datapar_impl::store(datapar_member_type<T>
v, U *mem, F f, type_tag<T>, enable_if<...>)` (lines 152-197), selected by
`sizeof(T) == sizeof(U) * 8`, `* 4`, `* 2` or `sizeof(T) == sizeof(U)`; no
overload accepts another pair (`none`). `full_abi` is `Vc_HAVE_FULL_AARCH_ABI`:
with it the body is `storeN(convert<...>(v), mem, f)`, without it (except
for the ratio 8, which has no fallback)
`execute_n_times<size<T>()>([&](auto i) { mem[i] = static_cast<U>(v[i]); });`.
`cast` is the scalar `static_cast<U>`. -/
def neon_datapar_impl.store_convert (full_abi : Bool) (sl : Nat) (t u : ElemType)
    (cast : Nat → Nat) (v : Storage) (mem : Nat → Nat) : Option (Nat → Nat) :=
  if sizeofT sl t = sizeofT sl u * 8 then
    some (store_bytes 2 (sizeofT sl u) (convert (size sl t) cast v) mem)
  else if sizeofT sl t = sizeofT sl u * 4 then
    some (if full_abi then store_bytes 4 (sizeofT sl u) (convert (size sl t) cast v) mem
      else execute_n_times (size sl t) (fun i mem => write mem i (cast (v i))) mem)
  else if sizeofT sl t = sizeofT sl u * 2 then
    some (if full_abi then store_bytes 8 (sizeofT sl u) (convert (size sl t) cast v) mem
      else execute_n_times (size sl t) (fun i mem => write mem i (cast (v i))) mem)
  else if sizeofT sl t = sizeofT sl u then
    some (if full_abi then store_bytes 16 (sizeofT sl u) (convert (size sl t) cast v) mem
      else execute_n_times (size sl t) (fun i mem => write mem i (cast (v i))) mem)
  else none

/-- `neon_datapar_impl::masked_store(datapar_member_type<T> v, long double
*mem, F, mask<T> k)`:
```
execute_n_times<size<T>()>([&](auto i) {
    if (k.d.m(i)) { mem[i] = v.m(i); }
});
```
`L` is `long double` and `cast` the implicit conversion of a `T` to it. -/
def neon_datapar_impl.masked_store_long_double {L : Type} (sl : Nat) (t : ElemType)
    (cast : Nat → L) (v : Storage) (mem : Nat → L) (k : Storage) : Nat → L :=
  execute_n_times (size sl t)
    (fun i mem => if to_bool sl t (k i) then write mem i (cast (v i)) else mem) mem

/-- `neon_datapar_impl::masked_store(datapar_member_type<T> v, U *mem, F,
mask<T> k)`:
```
execute_n_times<size<T>()>([&](auto i) {
    if (k.d.m(i)) { mem[i] = static_cast<T>(v.m(i)); }
});
```
`static_cast<T>` of the lane, a `T`, is the lane itself; `cast` is the
implicit conversion of a `T` to the buffer element type `U`. -/
def neon_datapar_impl.masked_store {U : Type} (sl : Nat) (t : ElemType)
    (cast : Nat → U) (v : Storage) (mem : Nat → U) (k : Storage) : Nat → U :=
  execute_n_times (size sl t)
    (fun i mem => if to_bool sl t (k i) then write mem i (cast (v i)) else mem) mem

/-- `neon_datapar_impl::negate(datapar<T> x)`, the variant without builtin
vector types: `return equal_to(x, datapar<T>(0));`. -/
def neon_datapar_impl.negate (sl : Nat) (t : ElemType) (x : Storage) : Storage :=
  neon_datapar_impl.equal_to sl t x (datapar_of_scalar 0)

/-- `neon_mask_impl::negate(const mask_member_type<T> &x, SizeTag)`, the
variant without builtin vector types: `return detail::not_(x.v());`. -/
def neon_mask_impl.negate (sl : Nat) (t : ElemType) (x : Storage) : Storage :=
  not_ (lane_bits sl t) x

/-- `neon_mask_impl::logical_and(const mask<T> &x, const mask<T> &y)`: the
body is empty, `{ }`, so no mask is returned (`none`). -/
def neon_mask_impl.logical_and (_x _y : Storage) : Option Storage :=
  none

/-- `neon_mask_impl::logical_or(x, y)`:
`return {private_init, detail::or_(x.d, y.d)};`. -/
def neon_mask_impl.logical_or (x y : Storage) : Storage :=
  or_ x y

/-- `neon_mask_impl::bit_and(x, y)`:
`return {private_init, detail::and_(x.d, y.d)};`. -/
def neon_mask_impl.bit_and (x y : Storage) : Storage :=
  and_ x y

/-- `neon_mask_impl::bit_or(x, y)`:
`return {private_init, detail::or_(x.d, y.d)};`. -/
def neon_mask_impl.bit_or (x y : Storage) : Storage :=
  or_ x y

/-- `neon_mask_impl::bit_xor(x, y)`:
`return {private_init, detail::xor_(x.d, y.d)};`. -/
def neon_mask_impl.bit_xor (x y : Storage) : Storage :=
  xor_ x y

/-- The lanes of a register of element type `T` are bit patterns of the lane
width. -/
def lanes_in_range (sl : Nat) (t : ElemType) (x : Storage) : Prop :=
  ∀ i, i < size sl t → x i < 2 ^ lane_bits sl t

/-! ## Width check, converting constructor, traits and builtin compares -/

/-- The compile-time width check of `simd_array<T, N>`:
`static_assert((N & (N - 1)) == 0, ...)`, evaluated over `std::size_t` of
`bits` bits, where `N - 1` wraps around for `N = 0`; `true` when the
assertion passes. -/
def width_check (bits N : Nat) : Bool :=
  (N &&& ((N + 2 ^ bits - 1) % 2 ^ bits)) == 0

/-- The implicit converting constructor
`template<typename U> simd_array(const simd_array<U, N> &x)`:
`d[0] = x.data(0);`. `vconv` is the native conversion of a `Vc::Vector<U>`
to a `Vc::Vector<T>` and `r0` the default-initialised member `d`. -/
def simd_array.convert_ctor {T U : Type} (vconv : vector_type U → vector_type T)
    (r0 : simd_array T) (x : simd_array U) : simd_array T :=
  r0.setData 0 (vconv (x.data 0))

/-- `traits<T, datapar_abi::neon>::size()` as a function of `sizeof(T)`:
`return 16 / sizeof(T);`. -/
def traits_size (sizeof_T : Nat) : Nat :=
  16 / sizeof_T

/-- The `static_assert(sizeof(T) <= 8, ...)` of `traits<T, datapar_abi::neon>`;
`true` when the assertion passes. -/
def traits_accepts (sizeof_T : Nat) : Bool :=
  decide (sizeof_T ≤ 8)

/-- The lane count of `neon_datapar_member_type<T> = Storage<T, 16 / sizeof(T)>`. -/
def neon_datapar_member_lanes (sizeof_T : Nat) : Nat :=
  16 / sizeof_T

/-- The lane count of `neon_mask_member_type<T> = Storage<T, 16 / sizeof(T)>`. -/
def neon_mask_member_lanes (sizeof_T : Nat) : Nat :=
  16 / sizeof_T

/-- `neon_datapar_impl::equal_to` with `Vc_USE_BUILTIN_VECTOR_TYPES`:
`return {private_init, x.d.builtin() == y.d.builtin()};`. The comparison of
two builtin vectors sets every bit of a result lane when the scalar
comparison of the lanes holds and clears it otherwise. -/
def neon_datapar_impl.equal_to_builtin (sl : Nat) (t : ElemType) (x y : Storage) : Storage :=
  cmp_lanes (lane_bits sl t) (fun a b => scalar_eq sl t a b) x y

/-- `neon_datapar_impl::not_equal_to` with `Vc_USE_BUILTIN_VECTOR_TYPES`:
`return {private_init, x.d.builtin() != y.d.builtin()};`. -/
def neon_datapar_impl.not_equal_to_builtin (sl : Nat) (t : ElemType) (x y : Storage) :
    Storage :=
  cmp_lanes (lane_bits sl t) (fun a b => !scalar_eq sl t a b) x y

/-- `neon_datapar_impl::less` with `Vc_USE_BUILTIN_VECTOR_TYPES`:
`return {private_init, x.d.builtin() < y.d.builtin()};`. -/
def neon_datapar_impl.less_builtin (sl : Nat) (t : ElemType) (x y : Storage) : Storage :=
  cmp_lanes (lane_bits sl t) (fun a b => scalar_lt sl t a b) x y

/-- `neon_datapar_impl::less_equal` with `Vc_USE_BUILTIN_VECTOR_TYPES`:
`return {private_init, x.d.builtin() <= y.d.builtin()};`. -/
def neon_datapar_impl.less_equal_builtin (sl : Nat) (t : ElemType) (x y : Storage) :
    Storage :=
  cmp_lanes (lane_bits sl t) (fun a b => scalar_le sl t a b) x y

/-- A native conversion of registers of naturals that keeps the low 8 bits
of every lane. -/
def ex_vconv : vector_type Nat → vector_type Nat :=
  fun u j => u j % 256

/-- The native compound assignment matching `ex_vadd`. -/
def ex_vadd_assign : vector_type Nat → vector_type Nat → vector_type Nat :=
  fun u v j => u j + v j

/-! ### Concrete operands used to instantiate the theorems -/

/-- A native element-wise addition on registers of naturals. -/
def ex_vadd : vector_type Nat → vector_type Nat → vector_type Nat :=
  fun u v j => u j + v j

/-- A native element-wise less-than on registers of naturals. -/
def ex_vlt : vector_type Nat → vector_type Nat → vector_type Bool :=
  fun u v j => decide (u j < v j)

/-- The compound vector whose lane `4 r + j` holds `10 r + j`. -/
def ex_a : simd_array Nat := ⟨fun r j => 10 * r + j⟩

/-- The compound vector whose lane `4 r + j` holds `r + 3 j`. -/
def ex_b : simd_array Nat := ⟨fun r j => r + 3 * j⟩

/-- A default-constructed compound vector. -/
def ex_r0 : simd_array Nat := ⟨fun _ _ => 0⟩

/-- A default-constructed compound mask. -/
def ex_m0 : simd_mask_array := ⟨fun _ _ => false⟩

/-- A buffer of four `float`s: `{2.0, 3.0, 2.0, 5.0}` as binary32 bit
patterns. -/
def ex_mem : Nat → Nat :=
  fun i => [0x40000000, 0x40400000, 0x40000000, 0x40A00000].getD i 0

/-- The 4-lane `float` vector broadcast from `2.0` compared with
`not_equal_to` against the vector loaded from `ex_mem`. -/
def ex_ne_mask : Storage :=
  neon_datapar_impl.not_equal_to 8 .float
    (neon_datapar_impl.broadcast_float 0x40000000) (neon_datapar_impl.load ex_mem)

/-- A register from a list of lanes. -/
def lanes_of (l : List Nat) : Storage :=
  fun i => l.getD i 0

/-! ### Lemmas on the register loops -/

theorem setData_d {T : Type} (r : simd_array T) (i : Nat) (v : vector_type T) (j : Nat) :
    (r.setData i v).d j = if j = i then v else r.d j := rfl

theorem mask_setData_d (r : simd_mask_array) (i : Nat) (v : vector_type Bool) (j : Nat) :
    (r.setData i v).d j = if j = i then v else r.d j := rfl

theorem foldl_setData_data {T : Type} (f : Nat → vector_type T) (n : Nat) (r0 : simd_array T)
    (j : Nat) :
    ((List.range n).foldl (fun r i => r.setData i (f i)) r0).d j
      = if j < n then f j else r0.d j := by
  induction n with
  | zero => simp
  | succ n ih =>
    rw [List.range_succ, List.foldl_append]
    simp only [List.foldl_cons, List.foldl_nil, setData_d]
    by_cases h : j = n
    · subst h; simp
    · rw [if_neg h, ih]
      by_cases h2 : j < n
      · rw [if_pos h2, if_pos (by omega)]
      · rw [if_neg h2, if_neg (by omega)]

theorem foldl_mask_setData_data (f : Nat → vector_type Bool) (n : Nat) (r0 : simd_mask_array)
    (j : Nat) :
    ((List.range n).foldl (fun r i => r.setData i (f i)) r0).d j
      = if j < n then f j else r0.d j := by
  induction n with
  | zero => simp
  | succ n ih =>
    rw [List.range_succ, List.foldl_append]
    simp only [List.foldl_cons, List.foldl_nil, mask_setData_d]
    by_cases h : j = n
    · subst h; simp
    · rw [if_neg h, ih]
      by_cases h2 : j < n
      · rw [if_pos h2, if_pos (by omega)]
      · rw [if_neg h2, if_neg (by omega)]

/-- Register `r` of `a op b` is the native operator applied to register `r`
of the operands, for every existing register. -/
theorem operator_op_data {T : Type} (vop : vector_type T → vector_type T → vector_type T)
    (N W : Nat) (r0 a b : simd_array T) (r : Nat) (hr : r < register_count N W) :
    (simd_array.operator_op vop N W r0 a b).data r = vop (a.data r) (b.data r) := by
  unfold simd_array.operator_op simd_array.data
  rw [foldl_setData_data (fun i => vop (a.d i) (b.d i)), if_pos hr]

/-- Register `r` of a comparison is the native comparison of register `r` of
the operands, for every existing register. -/
theorem operator_cmp_data {T : Type} (vcmp : vector_type T → vector_type T → vector_type Bool)
    (N W : Nat) (r0 : simd_mask_array) (a b : simd_array T) (r : Nat)
    (hr : r < register_count N W) :
    (simd_array.operator_cmp vcmp N W r0 a b).data r = vcmp (a.data r) (b.data r) := by
  unfold simd_array.operator_cmp simd_mask_array.data simd_array.data
  rw [foldl_mask_setData_data (fun i => vcmp (a.d i) (b.d i)), if_pos hr]

/-- When the width is a multiple of the native lane count, every lane below
the width lies in an existing register. -/
theorem lane_register_lt_of_dvd (N W i : Nat) (hW : 0 < W) (hdvd : W ∣ N) (hi : i < N) :
    i / W < register_count N W := by
  obtain ⟨k, rfl⟩ := hdvd
  have hk : 0 < k := by
    rcases Nat.eq_zero_or_pos k with h | h
    · subst h; simp at hi
    · exact h
  have hlt : i / W < k := by
    rw [Nat.div_lt_iff_lt_mul hW]; rw [Nat.mul_comm]; exact hi
  unfold register_count
  split
  · rw [Nat.mul_div_cancel_left k hW]; exact hlt
  · rename_i hle
    have : k = 1 := by
      by_contra hne
      have h2 : 2 ≤ k := by omega
      have : W * 2 ≤ W * k := Nat.mul_le_mul_left W h2
      omega
    omega

/-- For two powers of two, the smaller divides the larger: a lane below the
width lies in an existing register also when the width is below the native
lane count. -/
theorem lane_register_lt_of_pow (a b i : Nat) (hi : i < 2 ^ a) :
    i / 2 ^ b < register_count (2 ^ a) (2 ^ b) := by
  have hW : 0 < 2 ^ b := Nat.pos_pow_of_pos b (by decide)
  by_cases hab : b ≤ a
  · exact lane_register_lt_of_dvd _ _ i hW (Nat.pow_dvd_pow 2 hab) hi
  · have hlt : 2 ^ a < 2 ^ b := Nat.pow_lt_pow_right (by decide) (by omega)
    have h0 : i / 2 ^ b = 0 := Nat.div_eq_of_lt (by omega)
    unfold register_count
    rw [if_neg (by omega), h0]
    exact Nat.one_pos

/-! ## Theorems on `simd_array` -/

/-- C1: for a width `N` that is a multiple of the native lane count `W`
(every power-of-two `N ≥ W` is one when `W` is a power of two) and a native
operator `vop` that applies the scalar operator `sop` lane by lane, lane `i`
of `a op b` is `sop` applied to lane `i` of `a` and lane `i` of `b`, for
every lane `i < N`; lane `i` is position `i mod W` of register `i / W`. -/
theorem operator_op_lane {T : Type} (sop : T → T → T)
    (vop : vector_type T → vector_type T → vector_type T) (N W : Nat)
    (r0 a b : simd_array T)
    (hvop : ∀ u v j, j < W → vop u v j = sop (u j) (v j))
    (hW : 0 < W) (hdvd : W ∣ N) (i : Nat) (hi : i < N) :
    (simd_array.operator_op vop N W r0 a b).lane W i
      = sop (a.lane W i) (b.lane W i) := by
  have hr := lane_register_lt_of_dvd N W i hW hdvd hi
  unfold simd_array.lane
  rw [operator_op_data vop N W r0 a b (i / W) hr]
  exact hvop _ _ _ (Nat.mod_lt i hW)

/-- C1 at `N = 8`, `W = 4`, lane 5 (register 1, position 1). -/
theorem operator_op_lane_witness :
    (simd_array.operator_op ex_vadd 8 4 ex_r0 ex_a ex_b).lane 4 5
      = ex_a.lane 4 5 + ex_b.lane 4 5 :=
  operator_op_lane (fun p q => p + q) ex_vadd 8 4 ex_r0 ex_a ex_b
    (fun _ _ _ _ => rfl) (by decide) ⟨2, rfl⟩ 5 (by decide)

/-- C2: for power-of-two width `N = 2 ^ e` and native lane count
`W = 2 ^ f`, a comparison of two compound vectors returns a compound mask
whose register `r` is the native comparison of register `r` of the operands
for every `r < register_count`; hence, when the native comparison applies
the scalar comparison `scmp` lane by lane, mask lane `i` is `scmp` of lane
`i` of `a` and of `b` for every `i < N`. -/
theorem operator_cmp_lane {T : Type} (scmp : T → T → Bool)
    (vcmp : vector_type T → vector_type T → vector_type Bool) (e f : Nat)
    (r0 : simd_mask_array) (a b : simd_array T)
    (hvcmp : ∀ u v j, j < 2 ^ f → vcmp u v j = scmp (u j) (v j)) :
    (∀ r, r < register_count (2 ^ e) (2 ^ f) →
        (simd_array.operator_cmp vcmp (2 ^ e) (2 ^ f) r0 a b).data r
          = vcmp (a.data r) (b.data r)) ∧
    (∀ i, i < 2 ^ e →
        (simd_array.operator_cmp vcmp (2 ^ e) (2 ^ f) r0 a b).lane (2 ^ f) i
          = scmp (a.lane (2 ^ f) i) (b.lane (2 ^ f) i)) := by
  refine ⟨fun r hr => operator_cmp_data vcmp _ _ r0 a b r hr, fun i hi => ?_⟩
  have hr := lane_register_lt_of_pow e f i hi
  unfold simd_mask_array.lane simd_array.lane
  rw [operator_cmp_data vcmp _ _ r0 a b _ hr]
  exact hvcmp _ _ _ (Nat.mod_lt i (Nat.pos_pow_of_pos f (by decide)))

/-- C2 at `N = 8`, `W = 4`: register 1 and lane 6 of `ex_a < ex_b`. -/
theorem operator_cmp_lane_witness :
    (simd_array.operator_cmp ex_vlt (2 ^ 3) (2 ^ 2) ex_m0 ex_a ex_b).data 1
        = ex_vlt (ex_a.data 1) (ex_b.data 1) ∧
    (simd_array.operator_cmp ex_vlt (2 ^ 3) (2 ^ 2) ex_m0 ex_a ex_b).lane (2 ^ 2) 6
        = decide (ex_a.lane (2 ^ 2) 6 < ex_b.lane (2 ^ 2) 6) :=
  ⟨(operator_cmp_lane (fun p q => decide (p < q)) ex_vlt 3 2 ex_m0 ex_a ex_b
      (fun _ _ _ _ => rfl)).1 1 (by decide),
   (operator_cmp_lane (fun p q => decide (p < q)) ex_vlt 3 2 ex_m0 ex_a ex_b
      (fun _ _ _ _ => rfl)).2 6 (by decide)⟩

/-! ## Theorems on the NEON backend -/

/-- C3: on the NEON backend the 4-lane `float` vector broadcast from `2.0`,
compared with `not_equal_to` against the vector loaded from
`{2.0, 3.0, 2.0, 5.0}`, yields the mask `{false, true, false, true}`; on that
mask `any_of` is true, `all_of` is false, `popcount` is 2 and
`find_first_set` is 1. -/
theorem scenario_not_equal_to :
    (List.range (size 8 .float)).map (neon_mask_impl.get 8 .float ex_ne_mask)
        = [false, true, false, true] ∧
    any_of 8 .float ex_ne_mask = true ∧
    all_of 8 .float ex_ne_mask = false ∧
    popcount 8 .float ex_ne_mask = 2 ∧
    find_first_set 8 .float ex_ne_mask = some 1 := by
  decide

/-- C4 at the failing input `T = long`, `sizeof(long) = 8`, `x = {1, 1}`,
`y = {1, 2}`: `equal_to` returns the mask `{false, true}` where the lanes
compare `{true, false}`. -/
theorem equal_to_long_complemented :
    (List.range (size 8 .long)).map
        (neon_mask_impl.get 8 .long
          (neon_datapar_impl.equal_to 8 .long (lanes_of [1, 1]) (lanes_of [1, 2])))
      = [false, true] ∧
    (List.range (size 8 .long)).map
        (fun i => scalar_eq 8 .long (lanes_of [1, 1] i) (lanes_of [1, 2] i))
      = [true, false] := by
  decide

/-- C5 at the failing input `T = int`, `x = {1, 1, 1, 1}`,
`y = {2, 2, 2, 2}`: `less` returns the all-false mask where every lane of
`x` is less than the lane of `y`. -/
theorem less_int_swapped :
    (List.range (size 8 .int)).map
        (neon_mask_impl.get 8 .int
          (neon_datapar_impl.less 8 .int (lanes_of [1, 1, 1, 1]) (lanes_of [2, 2, 2, 2])))
      = [false, false, false, false] ∧
    (List.range (size 8 .int)).map
        (fun i => scalar_lt 8 .int (lanes_of [1, 1, 1, 1] i) (lanes_of [2, 2, 2, 2] i))
      = [true, true, true, true] := by
  decide

/-- C6 at the failing input `T = int`, `x = y = {1, 1, 1, 1}`: `less_equal`
returns the all-false mask where every lane of `x` is less than or equal to
the lane of `y`. -/
theorem less_equal_int_complemented :
    (List.range (size 8 .int)).map
        (neon_mask_impl.get 8 .int
          (neon_datapar_impl.less_equal 8 .int (lanes_of [1, 1, 1, 1])
            (lanes_of [1, 1, 1, 1])))
      = [false, false, false, false] ∧
    (List.range (size 8 .int)).map
        (fun i => scalar_le 8 .int (lanes_of [1, 1, 1, 1] i) (lanes_of [1, 1, 1, 1] i))
      = [true, true, true, true] := by
  decide

/-- C7 at the failing input `T = long`, `sizeof(long) = 8`, `x = {1, 1}`,
`y = {1, 2}`: `not_equal_to` and `equal_to` return the same mask
`{false, true}`, so neither is the complement of the other. -/
theorem not_equal_to_long_same_as_equal_to :
    (List.range (size 8 .long)).map
        (neon_mask_impl.get 8 .long
          (neon_datapar_impl.not_equal_to 8 .long (lanes_of [1, 1]) (lanes_of [1, 2])))
      = [false, true] ∧
    (List.range (size 8 .long)).map
        (neon_mask_impl.get 8 .long
          (neon_datapar_impl.equal_to 8 .long (lanes_of [1, 1]) (lanes_of [1, 2])))
      = [false, true] := by
  decide

/-! ### Lemmas on `movemask` -/

theorem testBit_sign_mask (w : Nat) (d : Storage) (n i : Nat) :
    (sign_mask w d n).testBit i = (decide (i < n) && (d i).testBit (w - 1)) := by
  induction n with
  | zero => simp [sign_mask]
  | succ n ih =>
    simp only [sign_mask, Nat.testBit_or, ih, Nat.testBit_shiftLeft, Nat.testBit_and,
      Nat.testBit_shiftRight]
    by_cases h : i = n
    · subst h; simp
    · by_cases h2 : i < n
      · have h3 : ¬ i ≥ n := by omega
        have h4 : i < n + 1 := by omega
        simp [h2, h3, h4]
      · have h3 : i ≥ n := by omega
        have h4 : ¬ i < n + 1 := by omega
        have h5 : i - n ≠ 0 := by omega
        have h6 : (1 : Nat).testBit (i - n) = false := by
          cases hb : (1 : Nat).testBit (i - n) with
          | false => rfl
          | true => exact absurd (Nat.testBit_one_eq_true_iff_self_eq_zero.mp hb) h5
        simp [h2, h3, h4, h6]

theorem sign_mask_lt (w : Nat) (d : Storage) (n : Nat) : sign_mask w d n < 2 ^ n := by
  apply Nat.lt_pow_two_of_testBit
  intro i hi
  rw [testBit_sign_mask]
  have h : ¬ i < n := by omega
  simp [h]

theorem sign_mask_eq_ones_iff (w : Nat) (d : Storage) (n : Nat) :
    sign_mask w d n = 2 ^ n - 1 ↔ ∀ i, i < n → (d i).testBit (w - 1) = true := by
  constructor
  · intro h i hi
    have h1 := testBit_sign_mask w d n i
    rw [h, Nat.testBit_two_pow_sub_one] at h1
    simpa [hi] using h1.symm
  · intro h
    apply Nat.eq_of_testBit_eq
    intro i
    rw [testBit_sign_mask, Nat.testBit_two_pow_sub_one]
    by_cases hi : i < n
    · simp [hi, h i hi]
    · simp [hi]

theorem sign_mask_eq_zero_iff (w : Nat) (d : Storage) (n : Nat) :
    sign_mask w d n = 0 ↔ ∀ i, i < n → (d i).testBit (w - 1) = false := by
  constructor
  · intro h i hi
    have h1 := testBit_sign_mask w d n i
    rw [h, Nat.zero_testBit] at h1
    simpa [hi] using h1.symm
  · intro h
    apply Nat.eq_of_testBit_eq
    intro i
    rw [testBit_sign_mask, Nat.zero_testBit]
    by_cases hi : i < n
    · simp [hi, h i hi]
    · simp [hi]

/-- The three tests `m == c`, `m == 0` and `m != 0 && (m ^ c) != 0` on an
integer `m`, for a constant `c ≠ 0`: exactly one of them holds. -/
theorem exactly_one_xor_form (m c : Nat) (hc : c ≠ 0) :
    (((m == c) = true ∧ (m == 0) = false ∧ (m != 0 && (m ^^^ c) != 0) = false) ∨
     ((m == c) = false ∧ (m == 0) = true ∧ (m != 0 && (m ^^^ c) != 0) = false) ∨
     ((m == c) = false ∧ (m == 0) = false ∧ (m != 0 && (m ^^^ c) != 0) = true)) ∧
    ¬ ((m == c) = true ∧ (m == 0) = true) ∧
    ((m != 0 && (m ^^^ c) != 0) = true ↔ ((m == c) = false ∧ (m == 0) = false)) := by
  have hx : (m ^^^ c = 0) ↔ m = c := Nat.xor_eq_zero
  by_cases h1 : m = c
  · have h2 : m ≠ 0 := by rw [h1]; exact hc
    have h3 : m ^^^ c = 0 := hx.mpr h1
    simp [h1, hc, h3]
  · have h3 : m ^^^ c ≠ 0 := fun h => h1 (hx.mp h)
    by_cases h2 : m = 0
    · subst h2
      simp [h1, h3]
    · simp [h1, h2, h3]

/-- The three tests `m == 3`, `m == 0` and `m == 1 || m == 2` on an integer
`m < 4`: exactly one of them holds. -/
theorem exactly_one_pd_form (m : Nat) (hm : m < 4) :
    (((m == 3) = true ∧ (m == 0) = false ∧ (m == 1 || m == 2) = false) ∨
     ((m == 3) = false ∧ (m == 0) = true ∧ (m == 1 || m == 2) = false) ∨
     ((m == 3) = false ∧ (m == 0) = false ∧ (m == 1 || m == 2) = true)) ∧
    ¬ ((m == 3) = true ∧ (m == 0) = true) ∧
    ((m == 1 || m == 2) = true ↔ ((m == 3) = false ∧ (m == 0) = false)) := by
  interval_cases m <;> decide

/-! ### Lemmas on encoded masks -/

theorem testBit_encoded (w v : Nat) (hw : 0 < w) (hv : v = 0 ∨ v = 2 ^ w - 1) :
    v.testBit (w - 1) = decide (v ≠ 0) := by
  have hpos : 2 ^ w - 1 ≠ 0 := by
    have : 2 ≤ 2 ^ w := by
      calc 2 = 2 ^ 1 := rfl
        _ ≤ 2 ^ w := Nat.pow_le_pow_right (by decide) hw
    omega
  rcases hv with h | h
  · subst h; simp
  · rw [h, Nat.testBit_two_pow_sub_one]
    have : w - 1 < w := by omega
    simp [this, hpos]

theorem sign_mask_encoded (w n : Nat) (k : Storage) (hw : 0 < w)
    (hk : ∀ i, i < n → k i = 0 ∨ k i = 2 ^ w - 1) :
    (sign_mask w k n = 2 ^ n - 1 ↔ ∀ i, i < n → k i ≠ 0) ∧
    (sign_mask w k n = 0 ↔ ∀ i, i < n → k i = 0) := by
  rw [sign_mask_eq_ones_iff, sign_mask_eq_zero_iff]
  constructor
  · constructor
    · intro h i hi
      have := h i hi
      rw [testBit_encoded w _ hw (hk i hi)] at this
      simpa using this
    · intro h i hi
      rw [testBit_encoded w _ hw (hk i hi)]
      simpa using h i hi
  · constructor
    · intro h i hi
      have := h i hi
      rw [testBit_encoded w _ hw (hk i hi)] at this
      simpa using this
    · intro h i hi
      rw [testBit_encoded w _ hw (hk i hi)]
      simpa using h i hi

theorem testBit_to_bytes (s : Nat) (k : Storage) (j : Nat) (hs : 0 < s)
    (hv : k (j / s) = 0 ∨ k (j / s) = 2 ^ (8 * s) - 1) :
    (to_bytes (8 * s) k j).testBit 7 = decide (k (j / s) ≠ 0) := by
  have hpos : 2 ^ (8 * s) - 1 ≠ 0 := by
    have : 2 ≤ 2 ^ (8 * s) := by
      calc 2 = 2 ^ 1 := rfl
        _ ≤ 2 ^ (8 * s) := Nat.pow_le_pow_right (by decide) (by omega)
    omega
  have h8 : 8 * s / 8 = s := by omega
  have h256 : (256 : Nat) = 2 ^ 8 := by norm_num
  unfold to_bytes
  rw [h8, h256, Nat.testBit_mod_two_pow, Nat.testBit_shiftRight]
  rcases hv with h | h
  · rw [h]; simp
  · rw [h, Nat.testBit_two_pow_sub_one]
    have hm : j % s < s := Nat.mod_lt j hs
    have : 8 * (j % s) + 7 < 8 * s := by omega
    simp [this, hpos]

theorem movemask_epi8_encoded (s : Nat) (hs : s = 1 ∨ s = 2 ∨ s = 4 ∨ s = 8) (k : Storage)
    (hk : ∀ i, i < 16 / s → k i = 0 ∨ k i = 2 ^ (8 * s) - 1) :
    (mm_movemask_epi8 (to_bytes (8 * s) k) = 0xffff ↔ ∀ i, i < 16 / s → k i ≠ 0) ∧
    (mm_movemask_epi8 (to_bytes (8 * s) k) = 0 ↔ ∀ i, i < 16 / s → k i = 0) := by
  have hs0 : 0 < s := by omega
  have hdiv : ∀ j, j < 16 → j / s < 16 / s := by
    intro j hj
    rcases hs with h | h | h | h <;> subst h <;> omega
  have hmul : ∀ i, i < 16 / s → i * s < 16 := by
    intro i hi
    rcases hs with h | h | h | h <;> subst h <;> omega
  have hb : ∀ j, j < 16 → (to_bytes (8 * s) k j).testBit 7 = decide (k (j / s) ≠ 0) :=
    fun j hj => testBit_to_bytes s k j hs0 (hk _ (hdiv j hj))
  have hff : (0xffff : Nat) = 2 ^ 16 - 1 := by norm_num
  unfold mm_movemask_epi8
  rw [hff, sign_mask_eq_ones_iff, sign_mask_eq_zero_iff]
  constructor
  · constructor
    · intro h i hi
      have := h (i * s) (hmul i hi)
      rw [hb _ (hmul i hi), Nat.mul_div_cancel i hs0] at this
      simpa using this
    · intro h j hj
      rw [hb j hj]
      simpa using h (j / s) (hdiv j hj)
  · constructor
    · intro h i hi
      have := h (i * s) (hmul i hi)
      rw [hb _ (hmul i hi), Nat.mul_div_cancel i hs0] at this
      simpa using this
    · intro h j hj
      rw [hb j hj]
      simpa using h (j / s) (hdiv j hj)

theorem to_bool_encoded (sl : Nat) (t : ElemType) (v : Nat) (hsl : sl = 4 ∨ sl = 8)
    (hv : v = 0 ∨ v = 2 ^ lane_bits sl t - 1) :
    to_bool sl t v = decide (v ≠ 0) := by
  rcases hsl with h | h <;> subst h <;> cases t <;> rcases hv with h | h <;> subst h <;> decide

theorem reductions_encoded (sl : Nat) (t : ElemType) (k : Storage) (hsl : sl = 4 ∨ sl = 8)
    (hk : mask_encoded sl t k) :
    (all_of sl t k = true ↔ ∀ i, i < size sl t → k i ≠ 0) ∧
    (none_of sl t k = true ↔ ∀ i, i < size sl t → k i = 0) ∧
    any_of sl t k = !none_of sl t k := by
  have gen : ∀ s, (s = 1 ∨ s = 2 ∨ s = 4 ∨ s = 8) →
      (∀ i, i < 16 / s → k i = 0 ∨ k i = 2 ^ (8 * s) - 1) →
      ((all_of_generic (8 * s) k = true ↔ ∀ i, i < 16 / s → k i ≠ 0) ∧
       (none_of_generic (8 * s) k = true ↔ ∀ i, i < 16 / s → k i = 0) ∧
       any_of_generic (8 * s) k = !none_of_generic (8 * s) k) := by
    intro s hs hks
    have h := movemask_epi8_encoded s hs k hks
    exact ⟨beq_iff_eq.trans h.1, beq_iff_eq.trans h.2, rfl⟩
  cases t
  case float =>
    have h := sign_mask_encoded (8 * 4) (16 / 4) k (by decide) hk
    have e1 : 2 ^ (16 / 4) - 1 = 0xf := by norm_num
    rw [e1] at h
    exact ⟨beq_iff_eq.trans h.1, beq_iff_eq.trans h.2, rfl⟩
  case double =>
    have h := sign_mask_encoded (8 * 8) (16 / 8) k (by decide) hk
    have e1 : 2 ^ (16 / 8) - 1 = 0x3 := by norm_num
    rw [e1] at h
    exact ⟨beq_iff_eq.trans h.1, beq_iff_eq.trans h.2, rfl⟩
  case llong => exact gen 8 (by decide) hk
  case ullong => exact gen 8 (by decide) hk
  case long =>
    rcases hsl with h | h <;> subst h
    · exact gen 4 (by decide) hk
    · exact gen 8 (by decide) hk
  case ulong =>
    rcases hsl with h | h <;> subst h
    · exact gen 4 (by decide) hk
    · exact gen 8 (by decide) hk
  case int => exact gen 4 (by decide) hk
  case uint => exact gen 4 (by decide) hk
  case short => exact gen 2 (by decide) hk
  case ushort => exact gen 2 (by decide) hk
  case schar => exact gen 1 (by decide) hk
  case uchar => exact gen 1 (by decide) hk

/-- C8: for every NEON mask `k` whose lanes are all-ones or all-zeros, in
the `float`, the `double` and the generic overloads: `all_of(k)` is true if
and only if every lane of `k` is true, `any_of(k)` if and only if at least
one lane is true, and `none_of(k)` if and only if every lane is false. -/
theorem reductions_characterised (sl : Nat) (t : ElemType) (k : Storage)
    (hsl : sl = 4 ∨ sl = 8) (hk : mask_encoded sl t k) :
    (all_of sl t k = true ↔ ∀ i, i < size sl t → neon_mask_impl.get sl t k i = true) ∧
    (any_of sl t k = true ↔ ∃ i, i < size sl t ∧ neon_mask_impl.get sl t k i = true) ∧
    (none_of sl t k = true ↔ ∀ i, i < size sl t → neon_mask_impl.get sl t k i = false) := by
  obtain ⟨hall, hnone, hany⟩ := reductions_encoded sl t k hsl hk
  have hget : ∀ i, i < size sl t → neon_mask_impl.get sl t k i = decide (k i ≠ 0) :=
    fun i hi => to_bool_encoded sl t (k i) hsl (hk i hi)
  refine ⟨?_, ?_, ?_⟩
  · rw [hall]
    constructor
    · intro h i hi
      rw [hget i hi]; simpa using h i hi
    · intro h i hi
      have := h i hi
      rw [hget i hi] at this; simpa using this
  · rw [hany]
    constructor
    · intro h
      have hn : ¬ (none_of sl t k = true) := by simpa using h
      rw [hnone] at hn
      push_neg at hn
      obtain ⟨i, hi, hne⟩ := hn
      exact ⟨i, hi, by rw [hget i hi]; simpa using hne⟩
    · rintro ⟨i, hi, hg⟩
      rw [hget i hi] at hg
      have hne : k i ≠ 0 := by simpa using hg
      have hn : ¬ (none_of sl t k = true) := by
        rw [hnone]; intro h; exact hne (h i hi)
      simpa using hn
  · rw [hnone]
    constructor
    · intro h i hi
      rw [hget i hi]; simpa using h i hi
    · intro h i hi
      have := h i hi
      rw [hget i hi] at this; simpa using this

/-- C8 at the 8-lane `short` mask `{0xffff, 0, 0xffff, 0, 0, 0, 0, 0xffff}`. -/
theorem reductions_characterised_witness :
    (all_of 8 .short (lanes_of [0xffff, 0, 0xffff, 0, 0, 0, 0, 0xffff]) = true ↔
      ∀ i, i < size 8 .short →
        neon_mask_impl.get 8 .short (lanes_of [0xffff, 0, 0xffff, 0, 0, 0, 0, 0xffff]) i
          = true) ∧
    (any_of 8 .short (lanes_of [0xffff, 0, 0xffff, 0, 0, 0, 0, 0xffff]) = true ↔
      ∃ i, i < size 8 .short ∧
        neon_mask_impl.get 8 .short (lanes_of [0xffff, 0, 0xffff, 0, 0, 0, 0, 0xffff]) i
          = true) ∧
    (none_of 8 .short (lanes_of [0xffff, 0, 0xffff, 0, 0, 0, 0, 0xffff]) = true ↔
      ∀ i, i < size 8 .short →
        neon_mask_impl.get 8 .short (lanes_of [0xffff, 0, 0xffff, 0, 0, 0, 0, 0xffff]) i
          = false) :=
  reductions_characterised 8 .short (lanes_of [0xffff, 0, 0xffff, 0, 0, 0, 0, 0xffff])
    (Or.inr rfl) (by unfold mask_encoded; decide)

/-- C9: for every NEON mask `k` of every element type (the `float`, the
`double` and the generic overloads), exactly one of `all_of(k)`,
`none_of(k)`, `some_of(k)` is true; `all_of(k)` and `none_of(k)` are never
both true, and `some_of(k)` holds exactly when neither does. -/
theorem reductions_exactly_one (sl : Nat) (t : ElemType) (k : Storage) :
    ((all_of sl t k = true ∧ none_of sl t k = false ∧ some_of sl t k = false) ∨
     (all_of sl t k = false ∧ none_of sl t k = true ∧ some_of sl t k = false) ∨
     (all_of sl t k = false ∧ none_of sl t k = false ∧ some_of sl t k = true)) ∧
    ¬ (all_of sl t k = true ∧ none_of sl t k = true) ∧
    (some_of sl t k = true ↔ (all_of sl t k = false ∧ none_of sl t k = false)) := by
  cases t
  case float => exact exactly_one_xor_form (mm_movemask_ps k) 0xf (by decide)
  case double => exact exactly_one_pd_form (mm_movemask_pd k) (sign_mask_lt 64 k 2)
  all_goals exact exactly_one_xor_form (mm_movemask_epi8 (to_bytes _ k)) 0xffff (by decide)



/-! ### Lemmas on the bit scans -/

theorem testBit_mask_to_int (sl : Nat) (t : ElemType) (n : Nat) (d : Storage) (i : Nat) :
    (mask_to_int sl t n d).testBit i = (decide (i < n) && to_bool sl t (d i)) := by
  induction n with
  | zero => simp [mask_to_int]
  | succ n ih =>
    simp only [mask_to_int, Nat.testBit_or, ih, Nat.testBit_shiftLeft]
    by_cases h : i = n
    · subst h
      cases to_bool sl t (d i) <;> simp
    · by_cases h2 : i < n
      · have h3 : ¬ i ≥ n := by omega
        have h4 : i < n + 1 := by omega
        simp [h2, h3, h4]
      · have h3 : i ≥ n := by omega
        have h4 : ¬ i < n + 1 := by omega
        have h5 : i - n ≠ 0 := by omega
        have h6 : (1 : Nat).testBit (i - n) = false := by
          cases hb : (1 : Nat).testBit (i - n) with
          | false => rfl
          | true => exact absurd (Nat.testBit_one_eq_true_iff_self_eq_zero.mp hb) h5
        cases to_bool sl t (d n) <;> simp [h2, h3, h4, h6]

theorem firstbit_from_none (bits fuel i : Nat)
    (h : ∀ j, i ≤ j → j < i + fuel → bits.testBit j = false) :
    firstbit_from bits fuel i = none := by
  induction fuel generalizing i with
  | zero => rfl
  | succ fuel ih =>
    unfold firstbit_from
    rw [if_neg (by rw [h i (Nat.le_refl i) (by omega)]; exact Bool.false_ne_true)]
    exact ih (i + 1) (fun j h1 h2 => h j (by omega) (by omega))

theorem firstbit_from_some (bits fuel i r : Nat) (hr1 : i ≤ r) (hr2 : r < i + fuel)
    (hbit : bits.testBit r = true) (hmin : ∀ j, i ≤ j → j < r → bits.testBit j = false) :
    firstbit_from bits fuel i = some r := by
  induction fuel generalizing i with
  | zero => omega
  | succ fuel ih =>
    unfold firstbit_from
    by_cases h : i = r
    · subst h; rw [if_pos hbit]
    · rw [if_neg (by rw [hmin i (Nat.le_refl i) (by omega)]; exact Bool.false_ne_true)]
      exact ih (i + 1) (by omega) (by omega) (fun j h1 h2 => hmin j (by omega) h2)

theorem lastbit_below_none (bits n : Nat) (h : ∀ j, j < n → bits.testBit j = false) :
    lastbit_below bits n = none := by
  induction n with
  | zero => rfl
  | succ n ih =>
    unfold lastbit_below
    rw [if_neg (by rw [h n (by omega)]; exact Bool.false_ne_true)]
    exact ih (fun j hj => h j (by omega))

theorem lastbit_below_some (bits n r : Nat) (hr : r < n) (hbit : bits.testBit r = true)
    (hmax : ∀ j, r < j → j < n → bits.testBit j = false) :
    lastbit_below bits n = some r := by
  induction n with
  | zero => omega
  | succ n ih =>
    unfold lastbit_below
    by_cases h : n = r
    · subst h; rw [if_pos hbit]
    · rw [if_neg (by rw [hmax n (by omega) (by omega)]; exact Bool.false_ne_true)]
      exact ih (by omega) (fun j h1 h2 => hmax j h1 (by omega))

theorem size_le (sl : Nat) (t : ElemType) : size sl t ≤ 16 :=
  Nat.div_le_self 16 _

/-- The least lane index below `n` at which `p` holds, when there is one. -/
theorem exists_least_lane (p : Nat → Bool) (n : Nat) (h : ∃ i, i < n ∧ p i = true) :
    ∃ f, f < n ∧ p f = true ∧ ∀ j, j < f → p j = false := by
  induction n with
  | zero => obtain ⟨i, hi, _⟩ := h; omega
  | succ n ih =>
    by_cases hn : ∃ i, i < n ∧ p i = true
    · obtain ⟨f, hf, hpf, hmin⟩ := ih hn
      exact ⟨f, by omega, hpf, hmin⟩
    · obtain ⟨i, hi, hpi⟩ := h
      have hin : i = n := by
        by_contra hne
        exact hn ⟨i, by omega, hpi⟩
      subst hin
      refine ⟨i, by omega, hpi, fun j hj => ?_⟩
      cases hpj : p j with
      | false => rfl
      | true => exact absurd ⟨j, hj, hpj⟩ hn

/-- The greatest lane index below `n` at which `p` holds, when there is one. -/
theorem exists_greatest_lane (p : Nat → Bool) (n : Nat) (h : ∃ i, i < n ∧ p i = true) :
    ∃ l, l < n ∧ p l = true ∧ ∀ j, l < j → j < n → p j = false := by
  induction n with
  | zero => obtain ⟨i, hi, _⟩ := h; omega
  | succ n ih =>
    cases hpn : p n with
    | true => exact ⟨n, by omega, hpn, fun j h1 h2 => by omega⟩
    | false =>
      have hn : ∃ i, i < n ∧ p i = true := by
        obtain ⟨i, hi, hpi⟩ := h
        have hne : i ≠ n := by
          intro he; subst he; rw [hpn] at hpi; exact Bool.false_ne_true hpi
        exact ⟨i, by omega, hpi⟩
      obtain ⟨l, hl, hpl, hmax⟩ := ih hn
      refine ⟨l, by omega, hpl, fun j h1 h2 => ?_⟩
      by_cases hj : j = n
      · subst hj; exact hpn
      · exact hmax j h1 (by omega)

/-- C10: for every NEON mask `k` with at least one true lane,
`find_first_set(k)` is the smallest and `find_last_set(k)` the largest lane
index `i` with `get(k, i)` true; for the entirely-false mask each function
returns the not-found sentinel (`none`), which is no lane index. -/
theorem find_set_characterised (sl : Nat) (t : ElemType) (k : Storage) :
    ((∃ i, i < size sl t ∧ neon_mask_impl.get sl t k i = true) →
      ∃ f l, find_first_set sl t k = some f ∧ find_last_set sl t k = some l ∧
        f < size sl t ∧ neon_mask_impl.get sl t k f = true ∧
        (∀ j, j < size sl t → neon_mask_impl.get sl t k j = true → f ≤ j) ∧
        l < size sl t ∧ neon_mask_impl.get sl t k l = true ∧
        (∀ j, j < size sl t → neon_mask_impl.get sl t k j = true → j ≤ l)) ∧
    ((∀ i, i < size sl t → neon_mask_impl.get sl t k i = false) →
      find_first_set sl t k = none ∧ find_last_set sl t k = none ∧
      ∀ i, i < size sl t →
        find_first_set sl t k ≠ some i ∧ find_last_set sl t k ≠ some i) := by
  have hsz := size_le sl t
  have hbit : ∀ i, (mask_to_int sl t (size sl t) k).testBit i
      = (decide (i < size sl t) && neon_mask_impl.get sl t k i) :=
    fun i => testBit_mask_to_int sl t (size sl t) k i
  constructor
  · intro hex
    obtain ⟨f, hf, hpf, hmin⟩ := exists_least_lane (neon_mask_impl.get sl t k) _ hex
    obtain ⟨l, hl, hpl, hmax⟩ := exists_greatest_lane (neon_mask_impl.get sl t k) _ hex
    refine ⟨f, l, ?_, ?_, hf, hpf, ?_, hl, hpl, ?_⟩
    · apply firstbit_from_some _ 32 0 f (Nat.zero_le f) (by omega)
      · rw [hbit]; simp [hf, hpf]
      · intro j _ hj; rw [hbit]; simp [hmin j hj]
    · apply lastbit_below_some _ 32 l (by omega)
      · rw [hbit]; simp [hl, hpl]
      · intro j h1 _
        rw [hbit]
        by_cases hjn : j < size sl t
        · simp [hmax j h1 hjn]
        · simp [hjn]
    · intro j _ hpj
      by_contra hlt
      have := hmin j (by omega)
      rw [hpj] at this
      exact Bool.false_ne_true this.symm
    · intro j hj hpj
      by_contra hlt
      have := hmax j (by omega) hj
      rw [hpj] at this
      exact Bool.false_ne_true this.symm
  · intro hall
    have hzero : ∀ j, (mask_to_int sl t (size sl t) k).testBit j = false := by
      intro j
      rw [hbit]
      by_cases hjn : j < size sl t
      · simp [hall j hjn]
      · simp [hjn]
    have h1 : find_first_set sl t k = none :=
      firstbit_from_none _ 32 0 (fun j _ _ => hzero j)
    have h2 : find_last_set sl t k = none :=
      lastbit_below_none _ 32 (fun j _ => hzero j)
    refine ⟨h1, h2, fun i _ => ?_⟩
    rw [h1, h2]
    exact ⟨fun h => Option.noConfusion h, fun h => Option.noConfusion h⟩

/-- C10 at the 4-lane `float` mask of `scenario_not_equal_to`
(`{false, true, false, true}`) and at the entirely-false 4-lane `int`
mask. -/
theorem find_set_characterised_witness :
    (∃ f l, find_first_set 8 .float ex_ne_mask = some f ∧
        find_last_set 8 .float ex_ne_mask = some l ∧
        f < size 8 .float ∧ neon_mask_impl.get 8 .float ex_ne_mask f = true ∧
        (∀ j, j < size 8 .float → neon_mask_impl.get 8 .float ex_ne_mask j = true → f ≤ j) ∧
        l < size 8 .float ∧ neon_mask_impl.get 8 .float ex_ne_mask l = true ∧
        (∀ j, j < size 8 .float → neon_mask_impl.get 8 .float ex_ne_mask j = true → j ≤ l)) ∧
    (find_first_set 8 .int (lanes_of [0, 0, 0, 0]) = none ∧
      find_last_set 8 .int (lanes_of [0, 0, 0, 0]) = none ∧
      ∀ i, i < size 8 .int →
        find_first_set 8 .int (lanes_of [0, 0, 0, 0]) ≠ some i ∧
        find_last_set 8 .int (lanes_of [0, 0, 0, 0]) ≠ some i) :=
  ⟨(find_set_characterised 8 .float ex_ne_mask).1 ⟨1, by decide, by decide⟩,
   (find_set_characterised 8 .int (lanes_of [0, 0, 0, 0])).2 (by decide)⟩

/-! ### What the compare table computes -/

theorem to_bool_zero (sl : Nat) (t : ElemType) (hsl : sl = 4 ∨ sl = 8) :
    to_bool sl t 0 = false := by
  rcases hsl with h | h <;> subst h <;> cases t <;> decide

theorem to_bool_ones (sl : Nat) (t : ElemType) (hsl : sl = 4 ∨ sl = 8) :
    to_bool sl t (2 ^ lane_bits sl t - 1) = true := by
  rcases hsl with h | h <;> subst h <;> cases t <;> decide

/-- A lane of a compare intrinsic of the element type's width reads back as
the comparison's result. -/
theorem get_cmp_lanes (sl : Nat) (t : ElemType) (p : Nat → Nat → Bool) (x y : Storage)
    (i : Nat) (hsl : sl = 4 ∨ sl = 8) :
    neon_mask_impl.get sl t (cmp_lanes (lane_bits sl t) p x y) i = p (x i) (y i) := by
  unfold neon_mask_impl.get cmp_lanes
  cases h : p (x i) (y i)
  · simp [to_bool_zero sl t hsl]
  · simp [to_bool_ones sl t hsl]

/-- A lane of the complement of a compare intrinsic reads back as the negated
result of the comparison. -/
theorem get_not_cmp_lanes (sl : Nat) (t : ElemType) (p : Nat → Nat → Bool) (x y : Storage)
    (i : Nat) (hsl : sl = 4 ∨ sl = 8) :
    neon_mask_impl.get sl t (not_ (lane_bits sl t) (cmp_lanes (lane_bits sl t) p x y)) i
      = !p (x i) (y i) := by
  have hpos : 0 < 2 ^ lane_bits sl t := Nat.pos_pow_of_pos _ (by decide)
  unfold neon_mask_impl.get not_ cmp_lanes
  cases h : p (x i) (y i)
  · simp [to_bool_ones sl t hsl]
  · have hm : (2 ^ lane_bits sl t - 1) % 2 ^ lane_bits sl t = 2 ^ lane_bits sl t - 1 :=
      Nat.mod_eq_of_lt (by omega)
    simp [hm, to_bool_zero sl t hsl]

/-- The rows of `equal_to` other than `long` and `unsigned long`: lane `i` is
true exactly when lane `i` of `x` equals lane `i` of `y`. -/
theorem equal_to_lane_of_ne_long (sl : Nat) (t : ElemType) (x y : Storage) (i : Nat)
    (hsl : sl = 4 ∨ sl = 8) (h1 : t ≠ .long) (h2 : t ≠ .ulong) :
    neon_mask_impl.get sl t (neon_datapar_impl.equal_to sl t x y) i
      = scalar_eq sl t (x i) (y i) := by
  cases t
  case long => exact absurd rfl h1
  case ulong => exact absurd rfl h2
  all_goals exact get_cmp_lanes sl _ _ x y i hsl

/-- Every row of `not_equal_to`: lane `i` is true exactly when lane `i` of `x`
differs from lane `i` of `y`. -/
theorem not_equal_to_lane_all (sl : Nat) (t : ElemType) (x y : Storage) (i : Nat)
    (hsl : sl = 4 ∨ sl = 8) :
    neon_mask_impl.get sl t (neon_datapar_impl.not_equal_to sl t x y) i
      = !scalar_eq sl t (x i) (y i) := by
  cases t
  case long =>
    rcases hsl with h | h <;> subst h
    · exact get_not_cmp_lanes 4 .long _ x y i (Or.inl rfl)
    · exact get_not_cmp_lanes 8 .long _ x y i (Or.inr rfl)
  case ulong =>
    rcases hsl with h | h <;> subst h
    · exact get_not_cmp_lanes 4 .ulong _ x y i (Or.inl rfl)
    · exact get_not_cmp_lanes 8 .ulong _ x y i (Or.inr rfl)
  all_goals exact get_not_cmp_lanes sl _ _ x y i hsl

/-- The `double` and `float` rows of `less`: lane `i` is true exactly when
lane `i` of `x` is less than lane `i` of `y`. -/
theorem less_lane_floating (sl : Nat) (t : ElemType) (x y : Storage) (i : Nat)
    (hsl : sl = 4 ∨ sl = 8) (ht : t.kind = .floating) :
    neon_mask_impl.get sl t (neon_datapar_impl.less sl t x y) i
      = scalar_lt sl t (x i) (y i) := by
  cases t
  case double => exact get_cmp_lanes sl _ _ x y i hsl
  case float => exact get_cmp_lanes sl _ _ x y i hsl
  all_goals exact absurd ht (by decide)

/-- The integer rows of `less`: lane `i` is true exactly when lane `i` of `y`
is less than lane `i` of `x`. -/
theorem less_lane_integer (sl : Nat) (t : ElemType) (x y : Storage) (i : Nat)
    (hsl : sl = 4 ∨ sl = 8) (ht : t.kind ≠ .floating) :
    neon_mask_impl.get sl t (neon_datapar_impl.less sl t x y) i
      = scalar_lt sl t (y i) (x i) := by
  cases t
  case double => exact absurd rfl ht
  case float => exact absurd rfl ht
  case long =>
    rcases hsl with h | h <;> subst h
    · exact get_cmp_lanes 4 .long _ y x i (Or.inl rfl)
    · exact get_cmp_lanes 8 .long _ y x i (Or.inr rfl)
  case ulong =>
    rcases hsl with h | h <;> subst h
    · exact get_cmp_lanes 4 .ulong _ y x i (Or.inl rfl)
    · exact get_cmp_lanes 8 .ulong _ y x i (Or.inr rfl)
  all_goals exact get_cmp_lanes sl _ _ y x i hsl

/-- Every row of `less_equal`: lane `i` is true exactly when lane `i` of `x`
is not less than or equal to lane `i` of `y`. -/
theorem less_equal_lane_all (sl : Nat) (t : ElemType) (x y : Storage) (i : Nat)
    (hsl : sl = 4 ∨ sl = 8) :
    neon_mask_impl.get sl t (neon_datapar_impl.less_equal sl t x y) i
      = !scalar_le sl t (x i) (y i) := by
  cases t
  case long =>
    rcases hsl with h | h <;> subst h
    · exact get_not_cmp_lanes 4 .long _ x y i (Or.inl rfl)
    · exact get_not_cmp_lanes 8 .long _ x y i (Or.inr rfl)
  case ulong =>
    rcases hsl with h | h <;> subst h
    · exact get_not_cmp_lanes 4 .ulong _ x y i (Or.inl rfl)
    · exact get_not_cmp_lanes 8 .ulong _ x y i (Or.inr rfl)
  all_goals exact get_not_cmp_lanes sl _ _ x y i hsl

/-- The rows of `equal_to` for `long` and `unsigned long`: lane `i` is true
exactly when lane `i` of `x` differs from lane `i` of `y`. -/
theorem equal_to_lane_long (sl : Nat) (t : ElemType) (x y : Storage) (i : Nat)
    (hsl : sl = 4 ∨ sl = 8) (ht : t = .long ∨ t = .ulong) :
    neon_mask_impl.get sl t (neon_datapar_impl.equal_to sl t x y) i
      = !scalar_eq sl t (x i) (y i) := by
  rcases ht with h | h <;> subst h <;> rcases hsl with h | h <;> subst h
  · exact get_not_cmp_lanes 4 .long _ x y i (Or.inl rfl)
  · exact get_not_cmp_lanes 8 .long _ x y i (Or.inr rfl)
  · exact get_not_cmp_lanes 4 .ulong _ x y i (Or.inl rfl)
  · exact get_not_cmp_lanes 8 .ulong _ x y i (Or.inr rfl)

/-! ## Further properties of the compare table -/

/-- X1: for the ten element types other than `long` and `unsigned long`,
lane `i` of `equal_to(x, y)` is true exactly when lane `i` of `x` equals lane
`i` of `y`. -/
theorem table_equal_to_ten_rows (sl : Nat) (t : ElemType) (x y : Storage) (i : Nat)
    (hsl : sl = 4 ∨ sl = 8) (h1 : t ≠ .long) (h2 : t ≠ .ulong) :
    neon_mask_impl.get sl t (neon_datapar_impl.equal_to sl t x y) i
      = scalar_eq sl t (x i) (y i) :=
  equal_to_lane_of_ne_long sl t x y i hsl h1 h2

/-- X1 at `T = short`, lane 2 of `{1, 2, 3, 4, 5, 6, 7, 8}` against
`{1, 0, 3, 0, 5, 0, 7, 0}`. -/
theorem table_equal_to_ten_rows_witness :
    neon_mask_impl.get 8 .short
        (neon_datapar_impl.equal_to 8 .short (lanes_of [1, 2, 3, 4, 5, 6, 7, 8])
          (lanes_of [1, 0, 3, 0, 5, 0, 7, 0])) 2
      = scalar_eq 8 .short (lanes_of [1, 2, 3, 4, 5, 6, 7, 8] 2)
          (lanes_of [1, 0, 3, 0, 5, 0, 7, 0] 2) :=
  table_equal_to_ten_rows 8 .short _ _ 2 (Or.inr rfl) (by decide) (by decide)

/-- X2: for every element type of the table, lane `i` of `not_equal_to(x, y)`
is true exactly when lane `i` of `x` differs from lane `i` of `y`. -/
theorem table_not_equal_to_rows (sl : Nat) (t : ElemType) (x y : Storage) (i : Nat)
    (hsl : sl = 4 ∨ sl = 8) :
    neon_mask_impl.get sl t (neon_datapar_impl.not_equal_to sl t x y) i
      = !scalar_eq sl t (x i) (y i) :=
  not_equal_to_lane_all sl t x y i hsl

/-- X2 at `T = long`, `sizeof(long) = 8`, lane 1 of `{1, 1}` against
`{1, 2}`. -/
theorem table_not_equal_to_rows_witness :
    neon_mask_impl.get 8 .long
        (neon_datapar_impl.not_equal_to 8 .long (lanes_of [1, 1]) (lanes_of [1, 2])) 1
      = !scalar_eq 8 .long (lanes_of [1, 1] 1) (lanes_of [1, 2] 1) :=
  table_not_equal_to_rows 8 .long _ _ 1 (Or.inr rfl)

/-- X3: for `double` and `float`, lane `i` of `less(x, y)` is true exactly
when lane `i` of `x` is less than lane `i` of `y`; for the ten integer
element types it is true exactly when lane `i` of `y` is less than lane `i`
of `x`. -/
theorem table_less_rows (sl : Nat) (t : ElemType) (x y : Storage) (i : Nat)
    (hsl : sl = 4 ∨ sl = 8) :
    (t.kind = .floating →
      neon_mask_impl.get sl t (neon_datapar_impl.less sl t x y) i
        = scalar_lt sl t (x i) (y i)) ∧
    (t.kind ≠ .floating →
      neon_mask_impl.get sl t (neon_datapar_impl.less sl t x y) i
        = scalar_lt sl t (y i) (x i)) :=
  ⟨less_lane_floating sl t x y i hsl, less_lane_integer sl t x y i hsl⟩

/-- X3 at `T = int`, lane 0 of `{1, 1, 1, 1}` against `{2, 2, 2, 2}`. -/
theorem table_less_rows_witness :
    neon_mask_impl.get 8 .int
        (neon_datapar_impl.less 8 .int (lanes_of [1, 1, 1, 1]) (lanes_of [2, 2, 2, 2])) 0
      = scalar_lt 8 .int (lanes_of [2, 2, 2, 2] 0) (lanes_of [1, 1, 1, 1] 0) :=
  (table_less_rows 8 .int _ _ 0 (Or.inr rfl)).2 (by decide)

/-- X4: for every element type of the table, lane `i` of `less_equal(x, y)`
is true exactly when lane `i` of `x` is not less than or equal to lane `i` of
`y`. -/
theorem table_less_equal_rows (sl : Nat) (t : ElemType) (x y : Storage) (i : Nat)
    (hsl : sl = 4 ∨ sl = 8) :
    neon_mask_impl.get sl t (neon_datapar_impl.less_equal sl t x y) i
      = !scalar_le sl t (x i) (y i) :=
  less_equal_lane_all sl t x y i hsl

/-- X4 at `T = float`, lane 3 of `{1.0, 1.0, 1.0, 1.0}` against itself. -/
theorem table_less_equal_rows_witness :
    neon_mask_impl.get 8 .float
        (neon_datapar_impl.less_equal 8 .float
          (lanes_of [0x3f800000, 0x3f800000, 0x3f800000, 0x3f800000])
          (lanes_of [0x3f800000, 0x3f800000, 0x3f800000, 0x3f800000])) 3
      = !scalar_le 8 .float (lanes_of [0x3f800000, 0x3f800000, 0x3f800000, 0x3f800000] 3)
          (lanes_of [0x3f800000, 0x3f800000, 0x3f800000, 0x3f800000] 3) :=
  table_less_equal_rows 8 .float _ _ 3 (Or.inr rfl)

/-! ## Theorems on `popcount`, the stores and the mask operators -/

theorem mask_count_eq_countP (sl : Nat) (t : ElemType) (n : Nat) (d : Storage) :
    mask_count sl t n d = (List.range n).countP (fun i => to_bool sl t (d i)) := by
  induction n with
  | zero => rfl
  | succ n ih =>
    rw [List.range_succ, List.countP_append, mask_count, ih]
    cases h : to_bool sl t (d n) <;> simp [List.countP_cons, h]

/-- C11: for every element type `T` and every NEON mask `k` of `T`,
`popcount(k)` is the number of lane indices `i < size<T>()` with `get(k, i)`
true (one per lane, whatever the lane width), so
`0 <= popcount(k) <= size<T>()`. -/
theorem popcount_counts_lanes (sl : Nat) (t : ElemType) (k : Storage) :
    popcount sl t k
        = (List.range (size sl t)).countP (fun i => neon_mask_impl.get sl t k i) ∧
    0 ≤ popcount sl t k ∧ popcount sl t k ≤ size sl t := by
  have h : popcount sl t k
      = (List.range (size sl t)).countP (fun i => neon_mask_impl.get sl t k i) :=
    mask_count_eq_countP sl t (size sl t) k
  refine ⟨h, Nat.zero_le _, ?_⟩
  rw [h]
  calc (List.range (size sl t)).countP (fun i => neon_mask_impl.get sl t k i)
      ≤ (List.range (size sl t)).length := List.countP_le_length _
    _ = size sl t := List.length_range _

theorem write_apply {U : Type} (mem : Nat → U) (i : Nat) (x : U) (j : Nat) :
    write mem i x j = if j = i then x else mem j := rfl

theorem foldl_write {U : Type} (n : Nat) (c : Nat → Bool) (val : Nat → U)
    (mem : Nat → U) (j : Nat) :
    (List.range n).foldl (fun s i => if c i = true then write s i (val i) else s) mem j
      = if j < n ∧ c j = true then val j else mem j := by
  induction n with
  | zero => simp
  | succ n ih =>
    rw [List.range_succ, List.foldl_append, List.foldl_cons, List.foldl_nil]
    by_cases hc : c n = true
    · rw [if_pos hc, write_apply]
      by_cases hj : j = n
      · subst hj; simp [hc]
      · rw [if_neg hj, ih]
        by_cases h2 : j < n
        · have h3 : j < n + 1 := by omega
          simp [h2, h3]
        · have h3 : ¬ j < n + 1 := by omega
          simp [h2, h3]
    · rw [if_neg hc, ih]
      by_cases hj : j = n
      · subst hj; simp [hc]
      · by_cases h2 : j < n
        · have h3 : j < n + 1 := by omega
          simp [h2, h3]
        · have h3 : ¬ j < n + 1 := by omega
          simp [h2, h3]

theorem execute_n_times_write {U : Type} (n : Nat) (c : Nat → Bool) (val : Nat → U)
    (mem : Nat → U) (j : Nat) :
    execute_n_times n (fun i mem => if c i = true then write mem i (val i) else mem) mem j
      = if j < n ∧ c j = true then val j else mem j :=
  foldl_write n c val mem j

theorem execute_n_times_write_all {U : Type} (n : Nat) (val : Nat → U) (mem : Nat → U)
    (j : Nat) :
    execute_n_times n (fun i mem => write mem i (val i)) mem j
      = if j < n then val j else mem j := by
  have h := execute_n_times_write n (fun _ => true) val mem j
  simpa using h

/-- C12: after `masked_store(v, mem, f, k)`, in the `long double` overload
and in the generic overload alike, `mem[i]` is lane `i` of `v` converted to
the buffer element type when `i < size<T>()` and lane `i` of `k` is true, and
is unchanged otherwise: a lane whose mask lane is false keeps its element,
and no element at an index `>= size<T>()` is written. -/
theorem masked_store_frame {L U : Type} (sl : Nat) (t : ElemType) (castL : Nat → L)
    (castU : Nat → U) (v k : Storage) (memL : Nat → L) (memU : Nat → U) (i : Nat) :
    neon_datapar_impl.masked_store_long_double sl t castL v memL k i
        = (if i < size sl t ∧ neon_mask_impl.get sl t k i = true then castL (v i)
            else memL i) ∧
    neon_datapar_impl.masked_store sl t castU v memU k i
        = (if i < size sl t ∧ neon_mask_impl.get sl t k i = true then castU (v i)
            else memU i) :=
  ⟨execute_n_times_write (size sl t) (fun i => to_bool sl t (k i)) (fun i => castL (v i))
      memL i,
   execute_n_times_write (size sl t) (fun i => to_bool sl t (k i)) (fun i => castU (v i))
      memU i⟩

theorem two_pow_pos (a : Nat) : 0 < 2 ^ a :=
  Nat.pos_pow_of_pos a (by decide)

/-- C20: for power-of-two width `N = 2 ^ a` and native lane count
`W = 2 ^ b`, `register_count` is `ceil(N / W)`: 1 whenever `N <= W`, and the
exact quotient `N / W` whenever `N > W`; `register_count * W >= N`, with
equality when `N >= W`. -/
theorem register_count_ceil (a b : Nat) :
    register_count (2 ^ a) (2 ^ b) = (2 ^ a + 2 ^ b - 1) / 2 ^ b ∧
    (2 ^ a ≤ 2 ^ b → register_count (2 ^ a) (2 ^ b) = 1) ∧
    (2 ^ a > 2 ^ b → register_count (2 ^ a) (2 ^ b) = 2 ^ a / 2 ^ b ∧
      2 ^ a / 2 ^ b * 2 ^ b = 2 ^ a) ∧
    register_count (2 ^ a) (2 ^ b) * 2 ^ b ≥ 2 ^ a ∧
    (2 ^ a ≥ 2 ^ b → register_count (2 ^ a) (2 ^ b) * 2 ^ b = 2 ^ a) := by
  have hN := two_pow_pos a
  have hW := two_pow_pos b
  by_cases hab : b ≤ a
  · -- `W` divides `N`
    obtain ⟨c, rfl⟩ : ∃ c, a = b + c := ⟨a - b, by omega⟩
    have hc := two_pow_pos c
    have hNW : 2 ^ (b + c) = 2 ^ b * 2 ^ c := Nat.pow_add 2 b c
    have hdiv : 2 ^ (b + c) / 2 ^ b = 2 ^ c := by
      rw [hNW]; exact Nat.mul_div_cancel_left _ hW
    have hceil : (2 ^ (b + c) + 2 ^ b - 1) / 2 ^ b = 2 ^ c := by
      rw [hNW]
      have : 2 ^ b * 2 ^ c + 2 ^ b - 1 = (2 ^ b - 1) + 2 ^ b * 2 ^ c := by omega
      rw [this, Nat.add_mul_div_left _ _ hW, Nat.div_eq_of_lt (by omega)]
      omega
    have hrc : register_count (2 ^ (b + c)) (2 ^ b) = 2 ^ c := by
      unfold register_count
      split
      · exact hdiv
      · rename_i hle
        have : 2 ^ c = 1 := by
          by_contra hne
          have h2 : 2 ≤ 2 ^ c := by omega
          have : 2 ^ b * 2 ≤ 2 ^ b * 2 ^ c := Nat.mul_le_mul_left _ h2
          omega
        omega
    rw [hrc, hceil, hdiv]
    refine ⟨rfl, ?_, ?_, ?_, ?_⟩
    · intro hle
      by_contra hne
      have h2 : 2 ≤ 2 ^ c := by omega
      have : 2 ^ b * 2 ≤ 2 ^ b * 2 ^ c := Nat.mul_le_mul_left _ h2
      omega
    · intro _
      exact ⟨rfl, by rw [hNW, Nat.mul_comm]⟩
    · rw [hNW, Nat.mul_comm]
    · intro _
      rw [hNW, Nat.mul_comm]
  · -- `N < W`
    have hlt : 2 ^ a < 2 ^ b := Nat.pow_lt_pow_right (by decide) (by omega)
    have hrc : register_count (2 ^ a) (2 ^ b) = 1 := by
      unfold register_count
      rw [if_neg (by omega)]
    have hceil : (2 ^ a + 2 ^ b - 1) / 2 ^ b = 1 := by
      have : 2 ^ a + 2 ^ b - 1 = (2 ^ a - 1) + 2 ^ b * 1 := by omega
      rw [this, Nat.add_mul_div_left _ _ hW, Nat.div_eq_of_lt (by omega)]
    rw [hrc, hceil]
    refine ⟨rfl, fun _ => rfl, fun h => by omega, by omega, fun h => by omega⟩

/-- C20 at `N = 16`, `W = 4` (four registers) and at `N = 2`, `W = 4` (one
padded register). -/
theorem register_count_ceil_witness :
    (register_count (2 ^ 4) (2 ^ 2) = 2 ^ 4 / 2 ^ 2 ∧ 2 ^ 4 / 2 ^ 2 * 2 ^ 2 = 2 ^ 4) ∧
    register_count (2 ^ 1) (2 ^ 2) = 1 ∧
    register_count (2 ^ 4) (2 ^ 2) * 2 ^ 2 = 2 ^ 4 :=
  ⟨(register_count_ceil 4 2).2.2.1 (by decide),
   (register_count_ceil 1 2).2.1 (by decide),
   (register_count_ceil 4 2).2.2.2.2 (by decide)⟩

/-! ### Lemmas on the bitwise mask operators -/

theorem lane_ops_encoded (sl : Nat) (t : ElemType) (hsl : sl = 4 ∨ sl = 8) (a b : Nat)
    (ha : a = 0 ∨ a = 2 ^ lane_bits sl t - 1) (hb : b = 0 ∨ b = 2 ^ lane_bits sl t - 1) :
    (to_bool sl t (a &&& b) = (to_bool sl t a && to_bool sl t b) ∧
      to_bool sl t (a ||| b) = (to_bool sl t a || to_bool sl t b) ∧
      to_bool sl t (a ^^^ b) = (to_bool sl t a != to_bool sl t b)) ∧
    ((a &&& b = 0 ∨ a &&& b = 2 ^ lane_bits sl t - 1) ∧
      (a ||| b = 0 ∨ a ||| b = 2 ^ lane_bits sl t - 1) ∧
      (a ^^^ b = 0 ∨ a ^^^ b = 2 ^ lane_bits sl t - 1)) := by
  have h0 := to_bool_zero sl t hsl
  have h1 := to_bool_ones sl t hsl
  rcases ha with ha | ha <;> rcases hb with hb | hb <;> subst ha <;> subst hb <;>
    simp [h0, h1]

theorem not_lane_encoded (w a : Nat) (ha : a = 0 ∨ a = 2 ^ w - 1) :
    (a = 0 → 2 ^ w - 1 - a % 2 ^ w = 2 ^ w - 1) ∧
    (a = 2 ^ w - 1 → 2 ^ w - 1 - a % 2 ^ w = 0) := by
  have hpos : 0 < 2 ^ w := two_pow_pos w
  constructor
  · intro h; subst h; simp
  · intro h
    have hm : a % 2 ^ w = a := Nat.mod_eq_of_lt (by omega)
    rw [hm]; omega

theorem encoded_cmp_lanes (sl : Nat) (t : ElemType) (p : Nat → Nat → Bool) (x y : Storage) :
    mask_encoded sl t (cmp_lanes (lane_bits sl t) p x y) := by
  intro i _
  unfold cmp_lanes
  cases p (x i) (y i)
  · exact Or.inl rfl
  · exact Or.inr rfl

theorem encoded_not (sl : Nat) (t : ElemType) (x : Storage) (hx : mask_encoded sl t x) :
    mask_encoded sl t (not_ (lane_bits sl t) x) := by
  intro i hi
  have h := not_lane_encoded (lane_bits sl t) (x i) (hx i hi)
  unfold not_
  rcases hx i hi with h0 | h1
  · exact Or.inr (h.1 h0)
  · exact Or.inl (h.2 h1)

theorem encoded_not_cmp_lanes (sl : Nat) (t : ElemType) (p : Nat → Nat → Bool)
    (x y : Storage) :
    mask_encoded sl t (not_ (lane_bits sl t) (cmp_lanes (lane_bits sl t) p x y)) :=
  encoded_not sl t _ (encoded_cmp_lanes sl t p x y)

theorem encoded_equal_to (sl : Nat) (t : ElemType) (x y : Storage) (hsl : sl = 4 ∨ sl = 8) :
    mask_encoded sl t (neon_datapar_impl.equal_to sl t x y) := by
  cases t
  case long =>
    rcases hsl with h | h <;> subst h
    · exact encoded_not_cmp_lanes 4 .long _ x y
    · exact encoded_not_cmp_lanes 8 .long _ x y
  case ulong =>
    rcases hsl with h | h <;> subst h
    · exact encoded_not_cmp_lanes 4 .ulong _ x y
    · exact encoded_not_cmp_lanes 8 .ulong _ x y
  all_goals exact encoded_cmp_lanes sl _ _ x y

theorem encoded_not_equal_to (sl : Nat) (t : ElemType) (x y : Storage)
    (hsl : sl = 4 ∨ sl = 8) :
    mask_encoded sl t (neon_datapar_impl.not_equal_to sl t x y) := by
  cases t
  case long =>
    rcases hsl with h | h <;> subst h
    · exact encoded_not_cmp_lanes 4 .long _ x y
    · exact encoded_not_cmp_lanes 8 .long _ x y
  case ulong =>
    rcases hsl with h | h <;> subst h
    · exact encoded_not_cmp_lanes 4 .ulong _ x y
    · exact encoded_not_cmp_lanes 8 .ulong _ x y
  all_goals exact encoded_not_cmp_lanes sl _ _ x y

theorem encoded_less (sl : Nat) (t : ElemType) (x y : Storage) (hsl : sl = 4 ∨ sl = 8) :
    mask_encoded sl t (neon_datapar_impl.less sl t x y) := by
  cases t
  case double => exact encoded_cmp_lanes sl _ _ x y
  case float => exact encoded_cmp_lanes sl _ _ x y
  case long =>
    rcases hsl with h | h <;> subst h
    · exact encoded_cmp_lanes 4 .long _ y x
    · exact encoded_cmp_lanes 8 .long _ y x
  case ulong =>
    rcases hsl with h | h <;> subst h
    · exact encoded_cmp_lanes 4 .ulong _ y x
    · exact encoded_cmp_lanes 8 .ulong _ y x
  all_goals exact encoded_cmp_lanes sl _ _ y x

theorem encoded_less_equal (sl : Nat) (t : ElemType) (x y : Storage)
    (hsl : sl = 4 ∨ sl = 8) :
    mask_encoded sl t (neon_datapar_impl.less_equal sl t x y) := by
  cases t
  case long =>
    rcases hsl with h | h <;> subst h
    · exact encoded_not_cmp_lanes 4 .long _ x y
    · exact encoded_not_cmp_lanes 8 .long _ x y
  case ulong =>
    rcases hsl with h | h <;> subst h
    · exact encoded_not_cmp_lanes 4 .ulong _ x y
    · exact encoded_not_cmp_lanes 8 .ulong _ x y
  all_goals exact encoded_not_cmp_lanes sl _ _ x y

/-- C13: for all NEON masks `x`, `y` of the same element type (masks, so
every lane is all-ones or all-zeros) and every lane `i`:
`get(bit_and(x, y), i) = get(x, i) AND get(y, i)`,
`get(bit_or(x, y), i) = get(x, i) OR get(y, i)` and
`get(bit_xor(x, y), i) = get(x, i) XOR get(y, i)`. -/
theorem mask_bit_ops_lanes (sl : Nat) (t : ElemType) (x y : Storage) (i : Nat)
    (hsl : sl = 4 ∨ sl = 8) (hx : mask_encoded sl t x) (hy : mask_encoded sl t y)
    (hi : i < size sl t) :
    neon_mask_impl.get sl t (neon_mask_impl.bit_and x y) i
        = (neon_mask_impl.get sl t x i && neon_mask_impl.get sl t y i) ∧
    neon_mask_impl.get sl t (neon_mask_impl.bit_or x y) i
        = (neon_mask_impl.get sl t x i || neon_mask_impl.get sl t y i) ∧
    neon_mask_impl.get sl t (neon_mask_impl.bit_xor x y) i
        = (neon_mask_impl.get sl t x i != neon_mask_impl.get sl t y i) :=
  (lane_ops_encoded sl t hsl (x i) (y i) (hx i hi) (hy i hi)).1

/-- C13 at the 4-lane `int` masks `{T, T, F, F}` and `{T, F, T, F}`, lane 1. -/
theorem mask_bit_ops_lanes_witness :
    neon_mask_impl.get 8 .int
        (neon_mask_impl.bit_and (lanes_of [0xffffffff, 0xffffffff, 0, 0])
          (lanes_of [0xffffffff, 0, 0xffffffff, 0])) 1
      = (neon_mask_impl.get 8 .int (lanes_of [0xffffffff, 0xffffffff, 0, 0]) 1 &&
          neon_mask_impl.get 8 .int (lanes_of [0xffffffff, 0, 0xffffffff, 0]) 1) ∧
    neon_mask_impl.get 8 .int
        (neon_mask_impl.bit_or (lanes_of [0xffffffff, 0xffffffff, 0, 0])
          (lanes_of [0xffffffff, 0, 0xffffffff, 0])) 1
      = (neon_mask_impl.get 8 .int (lanes_of [0xffffffff, 0xffffffff, 0, 0]) 1 ||
          neon_mask_impl.get 8 .int (lanes_of [0xffffffff, 0, 0xffffffff, 0]) 1) ∧
    neon_mask_impl.get 8 .int
        (neon_mask_impl.bit_xor (lanes_of [0xffffffff, 0xffffffff, 0, 0])
          (lanes_of [0xffffffff, 0, 0xffffffff, 0])) 1
      = (neon_mask_impl.get 8 .int (lanes_of [0xffffffff, 0xffffffff, 0, 0]) 1 !=
          neon_mask_impl.get 8 .int (lanes_of [0xffffffff, 0, 0xffffffff, 0]) 1) :=
  mask_bit_ops_lanes 8 .int (lanes_of [0xffffffff, 0xffffffff, 0, 0])
    (lanes_of [0xffffffff, 0, 0xffffffff, 0]) 1 (Or.inr rfl)
    (by unfold mask_encoded; decide) (by unfold mask_encoded; decide) (by decide)

/-- C14 at the failing input `x = {T, T, F, F}`, `y = {T, F, T, F}` (4-lane
`int` masks): `logical_and` returns no mask, while `logical_or` returns the
lanes of `bit_or`. -/
theorem logical_and_returns_nothing :
    neon_mask_impl.logical_and (lanes_of [0xffffffff, 0xffffffff, 0, 0])
        (lanes_of [0xffffffff, 0, 0xffffffff, 0]) = none ∧
    (List.range (size 8 .int)).map
        (neon_mask_impl.bit_and (lanes_of [0xffffffff, 0xffffffff, 0, 0])
          (lanes_of [0xffffffff, 0, 0xffffffff, 0]))
      = [0xffffffff, 0, 0, 0] ∧
    (List.range (size 8 .int)).map
        (neon_mask_impl.logical_or (lanes_of [0xffffffff, 0xffffffff, 0, 0])
          (lanes_of [0xffffffff, 0, 0xffffffff, 0]))
      = (List.range (size 8 .int)).map
        (neon_mask_impl.bit_or (lanes_of [0xffffffff, 0xffffffff, 0, 0])
          (lanes_of [0xffffffff, 0, 0xffffffff, 0])) :=
  ⟨rfl, by decide, rfl⟩

/-- C15: every mask returned by `equal_to`, `not_equal_to`, `less`,
`less_equal` and the value `negate` has each lane all-ones or all-zeros, and
the mask `negate`, `bit_and`, `bit_or`, `bit_xor` and `logical_or` return
such a mask whenever their mask arguments are such masks. -/
theorem mask_encoding_invariant (sl : Nat) (t : ElemType) (x y : Storage)
    (hsl : sl = 4 ∨ sl = 8) :
    (mask_encoded sl t (neon_datapar_impl.equal_to sl t x y) ∧
      mask_encoded sl t (neon_datapar_impl.not_equal_to sl t x y) ∧
      mask_encoded sl t (neon_datapar_impl.less sl t x y) ∧
      mask_encoded sl t (neon_datapar_impl.less_equal sl t x y) ∧
      mask_encoded sl t (neon_datapar_impl.negate sl t x)) ∧
    (mask_encoded sl t x → mask_encoded sl t (neon_mask_impl.negate sl t x)) ∧
    (mask_encoded sl t x → mask_encoded sl t y →
      mask_encoded sl t (neon_mask_impl.bit_and x y) ∧
      mask_encoded sl t (neon_mask_impl.bit_or x y) ∧
      mask_encoded sl t (neon_mask_impl.bit_xor x y) ∧
      mask_encoded sl t (neon_mask_impl.logical_or x y)) := by
  refine ⟨⟨encoded_equal_to sl t x y hsl, encoded_not_equal_to sl t x y hsl,
    encoded_less sl t x y hsl, encoded_less_equal sl t x y hsl,
    encoded_equal_to sl t x _ hsl⟩, encoded_not sl t x, fun hx hy => ?_⟩
  have h := fun i hi => (lane_ops_encoded sl t hsl (x i) (y i) (hx i hi) (hy i hi)).2
  exact ⟨fun i hi => (h i hi).1, fun i hi => (h i hi).2.1, fun i hi => (h i hi).2.2,
    fun i hi => (h i hi).2.1⟩

/-- C15 at 4-lane `int` operands: the compares of `{1, 2, 3, 4}` with
`{4, 2, 3, 1}`, and the mask operators on `{T, T, F, F}` and `{T, F, T, F}`. -/
theorem mask_encoding_invariant_witness :
    (mask_encoded 8 .int (neon_datapar_impl.equal_to 8 .int (lanes_of [1, 2, 3, 4])
        (lanes_of [4, 2, 3, 1])) ∧
      mask_encoded 8 .int (neon_datapar_impl.less_equal 8 .int (lanes_of [1, 2, 3, 4])
        (lanes_of [4, 2, 3, 1]))) ∧
    mask_encoded 8 .int
      (neon_mask_impl.negate 8 .int (lanes_of [0xffffffff, 0xffffffff, 0, 0])) ∧
    mask_encoded 8 .int
      (neon_mask_impl.bit_xor (lanes_of [0xffffffff, 0xffffffff, 0, 0])
        (lanes_of [0xffffffff, 0, 0xffffffff, 0])) :=
  ⟨⟨(mask_encoding_invariant 8 .int (lanes_of [1, 2, 3, 4]) (lanes_of [4, 2, 3, 1])
        (Or.inr rfl)).1.1,
    (mask_encoding_invariant 8 .int (lanes_of [1, 2, 3, 4]) (lanes_of [4, 2, 3, 1])
        (Or.inr rfl)).1.2.2.2.1⟩,
   (mask_encoding_invariant 8 .int (lanes_of [0xffffffff, 0xffffffff, 0, 0])
      (lanes_of [0xffffffff, 0, 0xffffffff, 0]) (Or.inr rfl)).2.1
      (by unfold mask_encoded; decide),
   ((mask_encoding_invariant 8 .int (lanes_of [0xffffffff, 0xffffffff, 0, 0])
      (lanes_of [0xffffffff, 0, 0xffffffff, 0]) (Or.inr rfl)).2.2
      (by unfold mask_encoded; decide) (by unfold mask_encoded; decide)).2.2.1⟩

/-- C16 at the failing input `T = long`, `sizeof(long) = 8`, `x = {0, 5}`:
the value `negate` returns the mask `{false, true}` where the lanes compare
to zero as `{true, false}`. -/
theorem negate_long_complemented :
    (List.range (size 8 .long)).map
        (neon_mask_impl.get 8 .long (neon_datapar_impl.negate 8 .long (lanes_of [0, 5])))
      = [false, true] ∧
    (List.range (size 8 .long)).map (fun i => scalar_eq 8 .long (lanes_of [0, 5] i) 0)
      = [true, false] := by
  decide

/-- C17: for every NEON mask `x`, the mask `negate` applied twice returns `x`
bit for bit, and lane `i` of `negate(x)` is the Boolean negation of lane `i`
of `x`, for every lane `i`. The first part needs only that the lanes of `x`
are bit patterns of the lane width, the second that `x` is a mask (every
lane all-ones or all-zeros). -/
theorem mask_negate_involution (sl : Nat) (t : ElemType) (x : Storage)
    (hsl : sl = 4 ∨ sl = 8) :
    (lanes_in_range sl t x → ∀ i, i < size sl t →
      neon_mask_impl.negate sl t (neon_mask_impl.negate sl t x) i = x i) ∧
    (mask_encoded sl t x → ∀ i, i < size sl t →
      neon_mask_impl.get sl t (neon_mask_impl.negate sl t x) i
        = !neon_mask_impl.get sl t x i) := by
  constructor
  · intro hx i hi
    have hlt := hx i hi
    have hpos : 0 < 2 ^ lane_bits sl t := two_pow_pos _
    unfold neon_mask_impl.negate not_
    have h1 : x i % 2 ^ lane_bits sl t = x i := Nat.mod_eq_of_lt hlt
    have h2 : (2 ^ lane_bits sl t - 1 - x i) % 2 ^ lane_bits sl t
        = 2 ^ lane_bits sl t - 1 - x i := Nat.mod_eq_of_lt (by omega)
    rw [h1, h2]
    omega
  · intro hx i hi
    have h := not_lane_encoded (lane_bits sl t) (x i) (hx i hi)
    unfold neon_mask_impl.get neon_mask_impl.negate not_
    rcases hx i hi with h0 | h1
    · rw [h.1 h0, h0, to_bool_zero sl t hsl, to_bool_ones sl t hsl]; rfl
    · rw [h.2 h1, h1, to_bool_zero sl t hsl, to_bool_ones sl t hsl]; rfl

/-- C17 at the mask `less(x, y)` of the 4-lane `float` vectors
`{1.0, 2.0, 3.0, 4.0}` and `{4.0, 3.0, 2.0, 1.0}`, lane 2. -/
theorem mask_negate_involution_witness :
    neon_mask_impl.negate 8 .float (neon_mask_impl.negate 8 .float
        (neon_datapar_impl.less 8 .float
          (lanes_of [0x3f800000, 0x40000000, 0x40400000, 0x40800000])
          (lanes_of [0x40800000, 0x40400000, 0x40000000, 0x3f800000]))) 2
      = neon_datapar_impl.less 8 .float
          (lanes_of [0x3f800000, 0x40000000, 0x40400000, 0x40800000])
          (lanes_of [0x40800000, 0x40400000, 0x40000000, 0x3f800000]) 2 ∧
    neon_mask_impl.get 8 .float (neon_mask_impl.negate 8 .float
        (neon_datapar_impl.less 8 .float
          (lanes_of [0x3f800000, 0x40000000, 0x40400000, 0x40800000])
          (lanes_of [0x40800000, 0x40400000, 0x40000000, 0x3f800000]))) 2
      = !neon_mask_impl.get 8 .float
          (neon_datapar_impl.less 8 .float
            (lanes_of [0x3f800000, 0x40000000, 0x40400000, 0x40800000])
            (lanes_of [0x40800000, 0x40400000, 0x40000000, 0x3f800000])) 2 :=
  ⟨(mask_negate_involution 8 .float _ (Or.inr rfl)).1
      (by unfold lanes_in_range; decide) 2 (by decide),
   (mask_negate_involution 8 .float _ (Or.inr rfl)).2
      (by unfold mask_encoded; decide) 2 (by decide)⟩

/-! ### Lemmas on the stores -/

theorem store_bytes_convert (nb su n : Nat) (cast : Nat → Nat) (v : Storage)
    (mem : Nat → Nat) (hn : nb / su = n) (i : Nat) :
    store_bytes nb su (convert n cast v) mem i = if i < n then cast (v i) else mem i := by
  unfold store_bytes convert
  rw [hn]
  by_cases h : i < n
  · simp [h]
  · simp [h]

theorem store_branch (full_abi : Bool) (nb su n : Nat) (cast : Nat → Nat) (v : Storage)
    (mem : Nat → Nat) (hn : nb / su = n) (i : Nat) :
    (if full_abi = true then store_bytes nb su (convert n cast v) mem
      else execute_n_times n (fun i mem => write mem i (cast (v i))) mem) i
      = if i < n then cast (v i) else mem i := by
  cases full_abi
  · simpa using execute_n_times_write_all n (fun i => cast (v i)) mem i
  · simpa using store_bytes_convert nb su n cast v mem hn i

theorem size_of_ratio (sl : Nat) (t u : ElemType) (r q : Nat)
    (h : sizeofT sl t = sizeofT sl u * r) (hq : 16 / r = q) :
    q / sizeofT sl u = size sl t := by
  unfold size
  rw [h, ← hq, Nat.div_div_eq_div_mul, Nat.mul_comm]

/-- The converting store, for a pair of element types an overload accepts:
the buffer afterwards. -/
theorem store_convert_some (full_abi : Bool) (sl : Nat) (t u : ElemType) (cast : Nat → Nat)
    (v : Storage) (mem : Nat → Nat)
    (hacc : sizeofT sl t = sizeofT sl u * 8 ∨ sizeofT sl t = sizeofT sl u * 4 ∨
      sizeofT sl t = sizeofT sl u * 2 ∨ sizeofT sl t = sizeofT sl u) :
    ∃ mem', neon_datapar_impl.store_convert full_abi sl t u cast v mem = some mem' ∧
      ∀ i, mem' i = if i < size sl t then cast (v i) else mem i := by
  unfold neon_datapar_impl.store_convert
  by_cases h8 : sizeofT sl t = sizeofT sl u * 8
  · rw [if_pos h8]
    exact ⟨_, rfl, store_bytes_convert 2 _ _ cast v mem
      (size_of_ratio sl t u 8 2 h8 (by decide))⟩
  rw [if_neg h8]
  by_cases h4 : sizeofT sl t = sizeofT sl u * 4
  · rw [if_pos h4]
    exact ⟨_, rfl, store_branch full_abi 4 _ _ cast v mem
      (size_of_ratio sl t u 4 4 h4 (by decide))⟩
  rw [if_neg h4]
  by_cases h2 : sizeofT sl t = sizeofT sl u * 2
  · rw [if_pos h2]
    exact ⟨_, rfl, store_branch full_abi 8 _ _ cast v mem
      (size_of_ratio sl t u 2 8 h2 (by decide))⟩
  rw [if_neg h2]
  have h1 : sizeofT sl t = sizeofT sl u := by
    rcases hacc with h | h | h | h
    · exact absurd h h8
    · exact absurd h h4
    · exact absurd h h2
    · exact h
  rw [if_pos h1]
  exact ⟨_, rfl, store_branch full_abi 16 _ _ cast v mem
    (size_of_ratio sl t u 1 16 (by rw [Nat.mul_one]; exact h1) (by decide))⟩

/-- C18: the `long double` store leaves `mem[i]` = the cast of lane `i` of `v`
for every `i < size<T>()` (and nothing else changed); for every pair of
element types `A`, `B` accepted by a converting store overload (with or
without `Vc_HAVE_FULL_AARCH_ABI`) the store returns, and afterwards
`mem[i]` is the scalar cast to `B` of lane `i` of `v` for every
`i < size<A>()` (and nothing else changed), so that the same-type load from
`mem` has these casts in its lanes `i < size<A>()`; the load from a
`long double` buffer has lane `i` = the scalar cast to `T` of `mem[i]` for
every `i < size<T>()`. -/
theorem converting_store_lanes {L : Type} (full_abi : Bool) (sl : Nat) (t u : ElemType)
    (cast : Nat → Nat) (castL : Nat → L) (castT : L → Nat) (v : Storage)
    (mem : Nat → Nat) (memL : Nat → L) :
    (∀ i, neon_datapar_impl.store_long_double sl t castL v memL i
        = if i < size sl t then castL (v i) else memL i) ∧
    ((sizeofT sl t = sizeofT sl u * 8 ∨ sizeofT sl t = sizeofT sl u * 4 ∨
        sizeofT sl t = sizeofT sl u * 2 ∨ sizeofT sl t = sizeofT sl u) →
      ∃ mem', neon_datapar_impl.store_convert full_abi sl t u cast v mem = some mem' ∧
        (∀ i, mem' i = if i < size sl t then cast (v i) else mem i) ∧
        (∀ i, i < size sl t → neon_datapar_impl.load mem' i = cast (v i))) ∧
    (∀ i, i < size sl t →
      neon_datapar_impl.load_long_double sl t castT memL i = castT (memL i)) := by
  refine ⟨fun i => execute_n_times_write_all (size sl t) (fun i => castL (v i)) memL i,
    fun hacc => ?_, fun i hi => ?_⟩
  · obtain ⟨mem', h1, h2⟩ := store_convert_some full_abi sl t u cast v mem hacc
    refine ⟨mem', h1, h2, fun i hi => ?_⟩
    show mem' i = cast (v i)
    rw [h2 i, if_pos hi]
  · unfold neon_datapar_impl.load_long_double generate_from_n_evaluations
    rw [if_pos hi]

/-- C18 at the store of the 4-lane `int` vector `{70000, 2, 3, 4}` to a
buffer of `short` (the cast keeps the low 16 bits), without
`Vc_HAVE_FULL_AARCH_ABI`. -/
theorem converting_store_lanes_witness :
    ∃ mem', neon_datapar_impl.store_convert false 8 .int .short (fun a => a % 65536)
        (lanes_of [70000, 2, 3, 4]) (fun _ => 99) = some mem' ∧
      (∀ i, mem' i = if i < size 8 .int
        then (fun a => a % 65536) (lanes_of [70000, 2, 3, 4] i) else (fun _ => 99) i) ∧
      (∀ i, i < size 8 .int →
        neon_datapar_impl.load mem' i = (fun a => a % 65536) (lanes_of [70000, 2, 3, 4] i)) :=
  (converting_store_lanes (L := Nat) false 8 .int .short (fun a => a % 65536) id id
    (lanes_of [70000, 2, 3, 4]) (fun _ => 99) (fun _ => 0)).2.1 (by decide)

/-- C19: for every element type `T`, vector `v` and buffer `mem`, the store
without conversion followed by the load without conversion returns the lanes
of `v` bit for bit, and the store writes exactly the `size<T>()` elements
`mem[0 .. size<T>())`: these hold the lanes of `v`, every other element is
unchanged. -/
theorem store_load_roundtrip (sl : Nat) (t : ElemType) (v : Storage) (mem : Nat → Nat) :
    (∀ i, i < size sl t →
      neon_datapar_impl.load (neon_datapar_impl.store sl t v mem) i = v i) ∧
    (∀ i, neon_datapar_impl.store sl t v mem i = if i < size sl t then v i else mem i) := by
  have h : ∀ i, neon_datapar_impl.store sl t v mem i
      = if i < size sl t then v i else mem i := fun i => rfl
  refine ⟨fun i hi => ?_, h⟩
  show neon_datapar_impl.store sl t v mem i = v i
  rw [h i, if_pos hi]

/-- C19 at the 8-lane `short` vector `{1, ..., 8}`, lane 7. -/
theorem store_load_roundtrip_witness :
    neon_datapar_impl.load
        (neon_datapar_impl.store 8 .short (lanes_of [1, 2, 3, 4, 5, 6, 7, 8]) (fun _ => 99)) 7
      = lanes_of [1, 2, 3, 4, 5, 6, 7, 8] 7 :=
  (store_load_roundtrip 8 .short (lanes_of [1, 2, 3, 4, 5, 6, 7, 8]) (fun _ => 99)).1 7
    (by decide)

/-! ## Further properties of the value negation -/

/-- X5: for the ten element types other than `long` and `unsigned long`,
lane `i` of the value `negate(x)` is true exactly when lane `i` of `x`
equals zero; for `long` and `unsigned long` it is true exactly when lane `i`
of `x` differs from zero. -/
theorem table_negate_rows (sl : Nat) (t : ElemType) (x : Storage) (i : Nat)
    (hsl : sl = 4 ∨ sl = 8) :
    (t ≠ .long → t ≠ .ulong →
      neon_mask_impl.get sl t (neon_datapar_impl.negate sl t x) i
        = scalar_eq sl t (x i) 0) ∧
    (t = .long ∨ t = .ulong →
      neon_mask_impl.get sl t (neon_datapar_impl.negate sl t x) i
        = !scalar_eq sl t (x i) 0) :=
  ⟨fun h1 h2 => equal_to_lane_of_ne_long sl t x (datapar_of_scalar 0) i hsl h1 h2,
   fun ht => equal_to_lane_long sl t x (datapar_of_scalar 0) i hsl ht⟩

/-- X5 at `T = int`, lane 0 of `{0, 5, 0, 1}`, and at `T = long`, lane 0 of
`{0, 5}`. -/
theorem table_negate_rows_witness :
    neon_mask_impl.get 8 .int (neon_datapar_impl.negate 8 .int (lanes_of [0, 5, 0, 1])) 0
        = scalar_eq 8 .int (lanes_of [0, 5, 0, 1] 0) 0 ∧
    neon_mask_impl.get 8 .long (neon_datapar_impl.negate 8 .long (lanes_of [0, 5])) 0
        = !scalar_eq 8 .long (lanes_of [0, 5] 0) 0 :=
  ⟨(table_negate_rows 8 .int (lanes_of [0, 5, 0, 1]) 0 (Or.inr rfl)).1
      (by decide) (by decide),
   (table_negate_rows 8 .long (lanes_of [0, 5]) 0 (Or.inr rfl)).2 (Or.inl rfl)⟩

/-! ## Theorems on the width check, the converting constructor and the traits -/

/-- C21 at the failing input `N = 0` (with a 64-bit `std::size_t`): the width
check passes, although 0 is no power of two. -/
theorem width_check_accepts_zero :
    width_check 64 0 = true ∧ ∀ e : Nat, (0 : Nat) ≠ 2 ^ e :=
  ⟨by decide, fun e => Nat.ne_of_lt (two_pow_pos e)⟩

/-- C22 at the failing input `N = 8`, native lane count 4, `x` with lanes
`{0, 1, 2, 3, 10, 11, 12, 13}`: the converting constructor converts lane 1
(register 0), and leaves lane 5 (register 1) at its default-initialised
content 0 where the conversion of lane 5 of `x` is 11. -/
theorem convert_ctor_first_register_only :
    (simd_array.convert_ctor ex_vconv ex_r0 ex_a).lane 4 1 = ex_a.lane 4 1 % 256 ∧
    (simd_array.convert_ctor ex_vconv ex_r0 ex_a).lane 4 5 = 0 ∧
    ex_a.lane 4 5 % 256 = 11 := by
  decide

/-- C23: `traits<T, datapar_abi::neon>::size()` is `16 / sizeof(T)`, which is
`floor(128 / (8 * sizeof(T)))`; for `sizeof(T)` 1, 2, 4 or 8 (every element
type of the backend, `sizeof(long)` being 4 or 8) it is a power of two with
`size() * sizeof(T) = 16` and the type is accepted; the mask member type has
the lane count of the data member type. -/
theorem traits_size_lanes (s sl : Nat) (t : ElemType) :
    (traits_size s = 16 / s ∧ traits_size s = 128 / (8 * s)) ∧
    (s = 1 ∨ s = 2 ∨ s = 4 ∨ s = 8 →
      traits_accepts s = true ∧ (∃ e, traits_size s = 2 ^ e) ∧ traits_size s * s = 16) ∧
    (sl = 4 ∨ sl = 8 →
      size sl t = traits_size (sizeofT sl t) ∧ traits_accepts (sizeofT sl t) = true ∧
      (∃ e, size sl t = 2 ^ e) ∧ size sl t * sizeofT sl t = 16) ∧
    (neon_mask_member_lanes s = neon_datapar_member_lanes s ∧
      neon_datapar_member_lanes s = traits_size s) := by
  refine ⟨⟨rfl, ?_⟩, ?_, ?_, rfl, rfl⟩
  · unfold traits_size
    rw [← Nat.div_div_eq_div_mul]
  · intro hs
    rcases hs with h | h | h | h <;> subst h
    · exact ⟨by decide, ⟨4, by decide⟩, by decide⟩
    · exact ⟨by decide, ⟨3, by decide⟩, by decide⟩
    · exact ⟨by decide, ⟨2, by decide⟩, by decide⟩
    · exact ⟨by decide, ⟨1, by decide⟩, by decide⟩
  · intro hsl
    have key : ∀ n, (n = 1 ∨ n = 2 ∨ n = 4 ∨ n = 8) →
        traits_accepts n = true ∧ (∃ e, 16 / n = 2 ^ e) ∧ 16 / n * n = 16 := by
      intro n hn
      rcases hn with h | h | h | h <;> subst h
      · exact ⟨by decide, ⟨4, by decide⟩, by decide⟩
      · exact ⟨by decide, ⟨3, by decide⟩, by decide⟩
      · exact ⟨by decide, ⟨2, by decide⟩, by decide⟩
      · exact ⟨by decide, ⟨1, by decide⟩, by decide⟩
    have hsz : sizeofT sl t = 1 ∨ sizeofT sl t = 2 ∨ sizeofT sl t = 4 ∨ sizeofT sl t = 8 := by
      rcases hsl with h | h <;> subst h <;> cases t <;> decide
    obtain ⟨h1, h2, h3⟩ := key (sizeofT sl t) hsz
    exact ⟨rfl, h1, h2, h3⟩

/-- C23 at `sizeof(T) = 2` and at `T = long` with `sizeof(long) = 8`. -/
theorem traits_size_lanes_witness :
    (traits_accepts 2 = true ∧ (∃ e, traits_size 2 = 2 ^ e) ∧ traits_size 2 * 2 = 16) ∧
    (size 8 .long = traits_size (sizeofT 8 .long) ∧
      traits_accepts (sizeofT 8 .long) = true ∧
      (∃ e, size 8 .long = 2 ^ e) ∧ size 8 .long * sizeofT 8 .long = 16) :=
  ⟨(traits_size_lanes 2 8 .long).2.1 (by decide),
   (traits_size_lanes 2 8 .long).2.2.1 (Or.inr rfl)⟩

theorem foldl_assign_data {T : Type} (g : vector_type T → vector_type T → vector_type T)
    (x : simd_array T) (n : Nat) (self : simd_array T) (j : Nat) :
    ((List.range n).foldl (fun s i => s.setData i (g (s.d i) (x.d i))) self).d j
      = if j < n then g (self.d j) (x.d j) else self.d j := by
  induction n with
  | zero => simp
  | succ n ih =>
    rw [List.range_succ, List.foldl_append, List.foldl_cons, List.foldl_nil, setData_d]
    by_cases h : j = n
    · subst h
      have hself : ((List.range j).foldl (fun s i => s.setData i (g (s.d i) (x.d i))) self).d j
          = self.d j := by
        rw [ih, if_neg (Nat.lt_irrefl j)]
      rw [if_pos rfl, hself, if_pos (Nat.lt_succ_self j)]
    · rw [if_neg h, ih]
      by_cases h2 : j < n
      · rw [if_pos h2, if_pos (by omega)]
      · rw [if_neg h2, if_neg (by omega)]

/-- C24: for a native compound assignment that leaves in its register what
the native binary operator returns (on the `W` lanes of a register), the
compound assignment `a op= b` leaves in `a`, register by register, the value
of `a op b` computed from the original `a`; `b` is a `const` reference the
loop never assigns to, and the result, the reference to `*this`, is the
updated `a`, which has no register beyond `register_count`. -/
theorem operator_op_assign_eq {T : Type}
    (vop vopAssign : vector_type T → vector_type T → vector_type T) (N W : Nat)
    (r0 a b : simd_array T)
    (h : ∀ u v j, j < W → vopAssign u v j = vop u v j) :
    (∀ r, r < register_count N W → ∀ j, j < W →
      (simd_array.operator_op_assign vopAssign N W a b).data r j
        = (simd_array.operator_op vop N W r0 a b).data r j) ∧
    (∀ r, register_count N W ≤ r →
      (simd_array.operator_op_assign vopAssign N W a b).data r = a.data r) := by
  have hd : ∀ r, (simd_array.operator_op_assign vopAssign N W a b).data r
      = if r < register_count N W then vopAssign (a.d r) (b.d r) else a.d r :=
    fun r => foldl_assign_data vopAssign b (register_count N W) a r
  constructor
  · intro r hr j hj
    rw [hd r, if_pos hr, operator_op_data vop N W r0 a b r hr]
    exact h _ _ j hj
  · intro r hr
    rw [hd r, if_neg (by omega)]
    rfl

/-- C24 at `N = 8`, `W = 4`, register 1, lane 2 of `ex_a += ex_b`. -/
theorem operator_op_assign_eq_witness :
    (simd_array.operator_op_assign ex_vadd_assign 8 4 ex_a ex_b).data 1 2
      = (simd_array.operator_op ex_vadd 8 4 ex_r0 ex_a ex_b).data 1 2 :=
  (operator_op_assign_eq ex_vadd ex_vadd_assign 8 4 ex_r0 ex_a ex_b
    (fun _ _ _ _ => rfl)).1 1 (by decide) 2 (by decide)

/-- C25 at the failing inputs: for `T = int` and `x = y = {1, 1, 1, 1}` the
builtin `less_equal` is all-ones in every lane and the intrinsic one
all-zeros; for `T = int`, `x = {1, 1, 1, 1}`, `y = {2, 2, 2, 2}` the same
holds of `less`; for `T = long` (`sizeof(long) = 8`), `x = {1, 1}`,
`y = {1, 2}` the builtin `equal_to` is `{all-ones, 0}` and the intrinsic one
`{0, all-ones}`. -/
theorem compare_variants_disagree :
    ((List.range (size 8 .int)).map
        (neon_datapar_impl.less_equal_builtin 8 .int (lanes_of [1, 1, 1, 1])
          (lanes_of [1, 1, 1, 1]))
        = [0xffffffff, 0xffffffff, 0xffffffff, 0xffffffff] ∧
      (List.range (size 8 .int)).map
        (neon_datapar_impl.less_equal 8 .int (lanes_of [1, 1, 1, 1]) (lanes_of [1, 1, 1, 1]))
        = [0, 0, 0, 0]) ∧
    ((List.range (size 8 .int)).map
        (neon_datapar_impl.less_builtin 8 .int (lanes_of [1, 1, 1, 1])
          (lanes_of [2, 2, 2, 2]))
        = [0xffffffff, 0xffffffff, 0xffffffff, 0xffffffff] ∧
      (List.range (size 8 .int)).map
        (neon_datapar_impl.less 8 .int (lanes_of [1, 1, 1, 1]) (lanes_of [2, 2, 2, 2]))
        = [0, 0, 0, 0]) ∧
    ((List.range (size 8 .long)).map
        (neon_datapar_impl.equal_to_builtin 8 .long (lanes_of [1, 1]) (lanes_of [1, 2]))
        = [0xffffffffffffffff, 0] ∧
      (List.range (size 8 .long)).map
        (neon_datapar_impl.equal_to 8 .long (lanes_of [1, 1]) (lanes_of [1, 2]))
        = [0, 0xffffffffffffffff]) := by
  decide

/-! ## Further properties of the width check, the constructor and the variants -/

theorem testBit_top (x h : Nat) (h1 : 2 ^ h ≤ x) (h2 : x < 2 ^ (h + 1)) :
    x.testBit h = true := by
  have hx : x = 2 ^ h + (x - 2 ^ h) := by omega
  have hlt : x - 2 ^ h < 2 ^ h := by
    have : 2 ^ (h + 1) = 2 ^ h + 2 ^ h := by rw [Nat.pow_succ]; omega
    omega
  rw [hx, Nat.testBit_two_pow_add_eq, Nat.testBit_lt_two_pow hlt]
  rfl

theorem and_pred_eq_zero_iff (N : Nat) (hN : N ≠ 0) :
    N &&& (N - 1) = 0 ↔ ∃ e, N = 2 ^ e := by
  constructor
  · intro h
    refine ⟨N.log2, ?_⟩
    have h1 : 2 ^ N.log2 ≤ N := Nat.log2_self_le hN
    have h2 : N < 2 ^ (N.log2 + 1) := Nat.lt_log2_self
    by_contra hne
    have hb1 : N.testBit N.log2 = true := testBit_top N _ h1 h2
    have hb2 : (N - 1).testBit N.log2 = true := testBit_top (N - 1) _ (by omega) (by omega)
    have hb : (N &&& (N - 1)).testBit N.log2 = true := by
      rw [Nat.testBit_and, hb1, hb2]; rfl
    rw [h, Nat.zero_testBit] at hb
    exact Bool.false_ne_true hb
  · rintro ⟨e, rfl⟩
    apply Nat.eq_of_testBit_eq
    intro j
    rw [Nat.testBit_and, Nat.testBit_two_pow, Nat.testBit_two_pow_sub_one, Nat.zero_testBit]
    by_cases hj : e = j
    · subst hj; simp
    · simp [hj]

/-- X6: for `N` below `2 ^ bits`, the width check passes exactly when `N` is
0 or a power of two. -/
theorem width_check_iff (bits N : Nat) (hN : N < 2 ^ bits) :
    width_check bits N = true ↔ N = 0 ∨ ∃ e, N = 2 ^ e := by
  unfold width_check
  rw [beq_iff_eq]
  by_cases h0 : N = 0
  · subst h0
    simp
  · have hm : (N + 2 ^ bits - 1) % 2 ^ bits = N - 1 := by
      have : N + 2 ^ bits - 1 = (N - 1) + 2 ^ bits := by omega
      rw [this, Nat.add_mod_right, Nat.mod_eq_of_lt (by omega)]
    rw [hm, and_pred_eq_zero_iff N h0]
    constructor
    · exact fun h => Or.inr h
    · rintro (h | h)
      · exact absurd h h0
      · exact h

/-- X6 at `N = 16` and at `N = 12` with a 64-bit `std::size_t`. -/
theorem width_check_iff_witness :
    (width_check 64 16 = true ↔ (16 = 0 ∨ ∃ e, 16 = 2 ^ e)) ∧
    (width_check 64 12 = true ↔ (12 = 0 ∨ ∃ e, 12 = 2 ^ e)) :=
  ⟨width_check_iff 64 16 (by decide), width_check_iff 64 12 (by decide)⟩

/-- X7: the converting constructor leaves in register 0 the native conversion
of register 0 of `x`, and in every other register the default-initialised
content. -/
theorem convert_ctor_registers {T U : Type} (vconv : vector_type U → vector_type T)
    (r0 : simd_array T) (x : simd_array U) (r : Nat) :
    (simd_array.convert_ctor vconv r0 x).data r
      = if r = 0 then vconv (x.data 0) else r0.data r :=
  rfl

theorem not_cmp_lanes (w : Nat) (p : Nat → Nat → Bool) (x y : Storage) (i : Nat) :
    not_ w (cmp_lanes w p x y) i = cmp_lanes w (fun a b => !p a b) x y i := by
  have hpos : 0 < 2 ^ w := two_pow_pos w
  unfold not_ cmp_lanes
  cases hp : p (x i) (y i)
  · simp [hp]
  · have hm : (2 ^ w - 1) % 2 ^ w = 2 ^ w - 1 := Nat.mod_eq_of_lt (by omega)
    simp [hm, hp]

/-- X8: the builtin-vector-type variant and the intrinsic variant of the
compare table return the same mask for `not_equal_to` on every element type,
for `equal_to` on the ten element types other than `long` and
`unsigned long`, and for `less` on `double` and `float`. -/
theorem compare_variants_agree (sl : Nat) (t : ElemType) (x y : Storage) (i : Nat)
    (hsl : sl = 4 ∨ sl = 8) :
    neon_datapar_impl.not_equal_to sl t x y i
        = neon_datapar_impl.not_equal_to_builtin sl t x y i ∧
    (t ≠ .long → t ≠ .ulong →
      neon_datapar_impl.equal_to sl t x y i = neon_datapar_impl.equal_to_builtin sl t x y i) ∧
    (t.kind = .floating →
      neon_datapar_impl.less sl t x y i = neon_datapar_impl.less_builtin sl t x y i) := by
  refine ⟨?_, ?_, ?_⟩
  · cases t
    case long =>
      rcases hsl with h | h <;> subst h
      · exact not_cmp_lanes _ _ x y i
      · exact not_cmp_lanes _ _ x y i
    case ulong =>
      rcases hsl with h | h <;> subst h
      · exact not_cmp_lanes _ _ x y i
      · exact not_cmp_lanes _ _ x y i
    all_goals exact not_cmp_lanes _ _ x y i
  · intro h1 h2
    cases t
    case long => exact absurd rfl h1
    case ulong => exact absurd rfl h2
    all_goals rfl
  · intro hk
    cases t
    case double => rfl
    case float => rfl
    all_goals exact absurd hk (by decide)

/-- X8 at `T = short`, lane 3 of `{1, 2, 3, 4, 5, 6, 7, 8}` against
`{1, 0, 3, 0, 5, 0, 7, 0}`. -/
theorem compare_variants_agree_witness :
    neon_datapar_impl.not_equal_to 8 .short (lanes_of [1, 2, 3, 4, 5, 6, 7, 8])
        (lanes_of [1, 0, 3, 0, 5, 0, 7, 0]) 3
      = neon_datapar_impl.not_equal_to_builtin 8 .short (lanes_of [1, 2, 3, 4, 5, 6, 7, 8])
        (lanes_of [1, 0, 3, 0, 5, 0, 7, 0]) 3 ∧
    neon_datapar_impl.equal_to 8 .short (lanes_of [1, 2, 3, 4, 5, 6, 7, 8])
        (lanes_of [1, 0, 3, 0, 5, 0, 7, 0]) 3
      = neon_datapar_impl.equal_to_builtin 8 .short (lanes_of [1, 2, 3, 4, 5, 6, 7, 8])
        (lanes_of [1, 0, 3, 0, 5, 0, 7, 0]) 3 :=
  ⟨(compare_variants_agree 8 .short _ _ 3 (Or.inr rfl)).1,
   (compare_variants_agree 8 .short _ _ 3 (Or.inr rfl)).2.1 (by decide) (by decide)⟩

end Vc
